import Mathlib

/-!
Verification development for the devconsul repository (topology.go, gen.go).

The Go sources are shallowly embedded: Go maps become association lists
(carrying the map's iteration order where the source ranges over them) or
lookup functions, fallible code returns `Option`/`Except` (a `panic` branch
becomes `none`/is modelled by option propagation), and Go `int` values that
are provably non-negative in the source become `Nat`.
-/

namespace Devconsul

/-! ## Decimal rendering (embedding of strconv.Itoa / fmt %d on non-negative ints) -/

/-- The decimal digit character for `n < 10` (as produced by Itoa). -/
def digitChar (n : Nat) : Char :=
  match n with
  | 0 => '0'
  | 1 => '1'
  | 2 => '2'
  | 3 => '3'
  | 4 => '4'
  | 5 => '5'
  | 6 => '6'
  | 7 => '7'
  | 8 => '8'
  | 9 => '9'
  | _ => '*'

/-- Digit list of the decimal rendering of `n`, most significant first.
The first argument is fuel (the recursion divides by 10, so fuel `n + 1`
always suffices); fuel keeps the recursion structural. -/
def itoaData : Nat → Nat → List Char
  | 0, _ => []
  | fuel + 1, n =>
    if n < 10 then [digitChar n]
    else itoaData fuel (n / 10) ++ [digitChar (n % 10)]

/-- Decimal digit list of `n`, most significant first. -/
def itoaD (n : Nat) : List Char := itoaData (n + 1) n

/-- Embedding of Go `strconv.Itoa` (and `fmt.Sprintf "%d"`) on non-negative values. -/
def itoa (n : Nat) : String := String.mk (itoaD n)

/-! ## Bytewise string comparison (Go string `<`/`<=`; ASCII here, so
char-wise lexicographic comparison coincides with Go's byte order) -/

/-- Lexicographic `≤` on char lists. -/
def charListLe : List Char → List Char → Bool
  | [], _ => true
  | _ :: _, [] => false
  | a :: as, b :: bs => if a = b then charListLe as bs else decide (a < b)

/-- Go string comparison `a <= b`. -/
def strLe (a b : String) : Bool := charListLe a.data b.data

/-! ## Data model (topology.go) -/

inductive NetworkShape
  | dual
  | flat
deriving DecidableEq, Repr

/-- `NetworkShape.GetNetworkName`.  The Go `default: panic` branch is
unreachable once the user string has been parsed into the two-value enum,
which the inductive type makes total. -/
def NetworkShape.getNetworkName : NetworkShape → String → String
  | .dual, dc => dc
  | .flat, _ => "lan"

structure Address where
  network : String
  ipAddress : String
deriving DecidableEq, Repr

structure Service where
  name : String
  port : Nat
  upstreamName : String
  upstreamDatacenter : String
  upstreamLocalPort : Nat
  upstreamExtraHCL : String
  meta : List (String × String)
deriving DecidableEq, Repr

structure Node where
  datacenter : String
  name : String
  server : Bool
  addresses : List Address
  service : Option Service := none
  meshGateway : Bool := false
  useBuiltinProxy : Bool := false
  index : Nat
deriving DecidableEq, Repr

structure Datacenter where
  name : String
  primary : Bool
  index : Nat
  servers : Nat
  clients : Nat
  baseIP : String
  wanBaseIP : String
deriving DecidableEq, Repr

/-- `userConfigTopologyNodeConfig`: per-node override record.  Only the
fields the builder consults appear; `meta` stands for the `Meta()`
accessor's result (the service metadata map, as a key-value list).
Zero-valued fields are the Go zero values, so "unset" is the default. -/
structure UserNodeConfig where
  meshGateway : Bool := false
  useBuiltinProxy : Bool := false
  upstreamName : String := ""
  upstreamDatacenter : String := ""
  upstreamExtraHCL : String := ""
  meta : List (String × String) := []
deriving DecidableEq, Repr

structure DatacenterSpec where
  servers : Nat
  clients : Nat
deriving DecidableEq, Repr

/-- The topology block of the user configuration.  The two Go maps are
association lists; for `datacenters` the list order is the map's iteration
order (Go map iteration order is arbitrary, so theorems that depend on it
quantify over permutations).  Keys are unique in a Go map, hence the
`Nodup` hypotheses on theorems below. -/
structure UserConfigTopology where
  networkShape : String
  datacenters : List (String × DatacenterSpec)
  nodeConfig : List (String × UserNodeConfig)
deriving DecidableEq, Repr

/-- Modelled from the spec: the constant `PrimaryDC` is declared outside the
included source files; the spec fixes it ("exactly one datacenter, fixed
name `dc1`, is designated primary"). -/
def PrimaryDC : String := "dc1"

/-- Association-list lookup, modelling a Go map read with its `ok` flag. -/
def alookup {α : Type} (l : List (String × α)) (k : String) : Option α :=
  (l.find? (fun p => p.1 == k)).map Prod.snd

inductive TopoError
  | unknownNetworkShape (shape : String)
  | missingPrimaryDC
  | atLeastOneServer (dc : String)
  | atLeastOneClient (dc : String)
  | invalidDCName (dc : String)
deriving DecidableEq, Repr

/-- The `switch uc.Topology.NetworkShape` at the top of `InferTopology`. -/
def parseNetworkShape : String → Option NetworkShape
  | "dual" => some .dual
  | "flat" => some .flat
  | "" => some .flat
  | _ => none

def digitVal (c : Char) : Nat := c.toNat - 48

def digitsToNat (cs : List Char) : Nat := cs.foldl (fun a c => a * 10 + digitVal c) 0

/-- Largest value `strconv.Atoi` accepts on a 64-bit platform. -/
def maxGoInt : Nat := 9223372036854775807

/-- The `^dc([0-9]+)$` regexp match followed by `strconv.Atoi` on the digit
group (which fails only when the value overflows a Go int). -/
def parseDCName (dc : String) : Option Nat :=
  match dc.data with
  | c1 :: c2 :: rest =>
    if c1 = 'd' ∧ c2 = 'c' ∧ rest ≠ [] ∧ rest.all Char.isDigit ∧ digitsToNat rest ≤ maxGoInt then
      some (digitsToNat rest)
    else none
  | _ => none

/-- One `Datacenter` record as appended inside the validation loop. -/
def mkDatacenter (dc : String) (i : Nat) (v : DatacenterSpec) : Datacenter :=
  { name := dc
    primary := dc == PrimaryDC
    index := i
    servers := v.servers
    clients := v.clients
    baseIP := "10.0." ++ itoa i
    wanBaseIP := "10.1." ++ itoa i }

/-- The `for dc, v := range t.Datacenters` validation loop: checks servers,
then clients, then the name pattern, failing fast; on success it appends
one `Datacenter` record per entry in iteration order. -/
def buildDCs : List (String × DatacenterSpec) → Except TopoError (List Datacenter)
  | [] => .ok []
  | (dc, v) :: rest =>
    if v.servers ≤ 0 then .error (.atLeastOneServer dc)
    else if v.clients ≤ 0 then .error (.atLeastOneClient dc)
    else
      match parseDCName dc with
      | none => .error (.invalidDCName dc)
      | some i =>
        match buildDCs rest with
        | .error e => .error e
        | .ok ds => .ok (mkDatacenter dc i v :: ds)

/-- The node name `dc + "-server" + strconv.Itoa(idx)`. -/
def serverName (dc : String) (idx : Nat) : String := dc ++ "-server" ++ itoa idx

/-- The node name `dc + "-client" + strconv.Itoa(idx)`. -/
def clientName (dc : String) (idx : Nat) : String := dc ++ "-client" ++ itoa idx

/-- The server-node construction in `forDC` (topology.go lines 58-87). -/
def serverNode (shape : NetworkShape) (dc baseIP wanBaseIP : String) (idx : Nat) : Node :=
  let ip := baseIP ++ "." ++ itoa (10 + idx)
  let wanIP := wanBaseIP ++ "." ++ itoa (10 + idx)
  let node : Node :=
    { datacenter := dc
      name := serverName dc idx
      server := true
      addresses := [{ network := shape.getNetworkName dc, ipAddress := ip }]
      index := idx - 1 }
  match shape with
  | .dual => { node with addresses := node.addresses ++ [{ network := "wan", ipAddress := wanIP }] }
  | .flat => node

/-- The client-node construction in `forDC` (topology.go lines 89-157). -/
def clientNode (nodeConfigs : List (String × UserNodeConfig)) (shape : NetworkShape)
    (dc baseIP wanBaseIP : String) (idx : Nat) : Node :=
  let ip := baseIP ++ "." ++ itoa (20 + idx)
  let wanIP := wanBaseIP ++ "." ++ itoa (20 + idx)
  let nodeName := clientName dc idx
  let node : Node :=
    { datacenter := dc
      name := nodeName
      server := false
      addresses := [{ network := shape.getNetworkName dc, ipAddress := ip }]
      index := idx - 1 }
  let nodeConfig := (alookup nodeConfigs nodeName).getD {}
  if nodeConfig.meshGateway then
    let node := { node with meshGateway := true }
    match shape with
    | .dual => { node with addresses := node.addresses ++ [{ network := "wan", ipAddress := wanIP }] }
    | .flat => node
  else
    let node := { node with useBuiltinProxy := nodeConfig.useBuiltinProxy }
    let svc0 : Service :=
      { name := ""
        port := 8080
        upstreamName := ""
        upstreamDatacenter := ""
        upstreamLocalPort := 9090
        upstreamExtraHCL := nodeConfig.upstreamExtraHCL
        meta := nodeConfig.meta }
    let svc1 :=
      if idx % 2 == 1 then { svc0 with name := "ping", upstreamName := "pong" }
      else { svc0 with name := "pong", upstreamName := "ping" }
    let svc2 :=
      if nodeConfig.upstreamName ≠ "" then { svc1 with upstreamName := nodeConfig.upstreamName }
      else svc1
    let svc3 :=
      if nodeConfig.upstreamDatacenter ≠ "" then
        { svc2 with upstreamDatacenter := nodeConfig.upstreamDatacenter }
      else svc2
    { node with service := some svc3 }

/-- `Topology`: the node map is a lookup function (Go map semantics). -/
structure Topology where
  servers : List String
  clients : List String
  nm : String → Option Node
  dcs : List Datacenter
  networkShape : NetworkShape

/-- The `addNode` closure: store under the node's name, append the name to
the role list. -/
def addNode (t : Topology) (node : Node) : Topology :=
  { t with
    nm := fun k => if k = node.name then some node else t.nm k
    servers := if node.server then t.servers ++ [node.name] else t.servers
    clients := if node.server then t.clients else t.clients ++ [node.name] }

/-- The nodes `forDC` constructs for one datacenter: servers 1..N in index
order, then clients 1..M. -/
def dcNodes (nodeConfigs : List (String × UserNodeConfig)) (shape : NetworkShape)
    (d : Datacenter) : List Node :=
  ((List.range' 1 d.servers).map (serverNode shape d.name d.baseIP d.wanBaseIP)) ++
  ((List.range' 1 d.clients).map (clientNode nodeConfigs shape d.name d.baseIP d.wanBaseIP))

/-- `forDC`: add every node of the datacenter, in construction order. -/
def forDC (nodeConfigs : List (String × UserNodeConfig)) (shape : NetworkShape)
    (t : Topology) (d : Datacenter) : Topology :=
  (dcNodes nodeConfigs shape d).foldl addNode t

/-- Sorting of `topology.dcs` by name (`sort.Slice`; the comparator is a
strict name comparison and names are unique Go map keys, so the unstable
sort has a unique result, here realised by insertion sort). -/
def sortDCs (ds : List Datacenter) : List Datacenter :=
  List.insertionSort (fun a b => strLe a.name b.name = true) ds

/-- The topology the builder returns once validation has passed, as a
function of the collected datacenter list: sort the datacenters by name,
then synthesize and add every node. -/
def buildTopo (nodeConfigs : List (String × UserNodeConfig)) (shape : NetworkShape)
    (ds : List Datacenter) : Topology :=
  (sortDCs ds).foldl (forDC nodeConfigs shape)
    { servers := []
      clients := []
      nm := fun _ => none
      dcs := sortDCs ds
      networkShape := shape }

/-- `InferTopology` (topology.go lines 29-202): parse the network shape,
check the primary datacenter, validate and collect the datacenters in map
iteration order, sort them by name, then synthesize every node. -/
def inferTopology (uc : UserConfigTopology) : Except TopoError Topology :=
  match parseNetworkShape uc.networkShape with
  | none => .error (.unknownNetworkShape uc.networkShape)
  | some shape =>
    if (alookup uc.datacenters PrimaryDC).isSome then
      match buildDCs uc.datacenters with
      | .error e => .error e
      | .ok ds => .ok (buildTopo uc.nodeConfig shape ds)
    else .error .missingPrimaryDC

/-! ## Topology query surface -/

def Topology.node (t : Topology) (name : String) : Option Node := t.nm name

/-- `Topology.all`: full iteration order used by `Walk`/`WalkSilent`. -/
def Topology.all (t : Topology) : List String := t.servers ++ t.clients

/-- `Node.LocalAddress`; `none` models the "node has no local address" panic. -/
def Node.localAddress (n : Node) : Option String :=
  (n.addresses.find? (fun a => a.network == n.datacenter || a.network == "lan")).map
    Address.ipAddress

/-- `Node.PublicAddress`; `none` models the "node has no public address" panic. -/
def Node.publicAddress (n : Node) : Option String :=
  (n.addresses.find? (fun a => a.network == "wan")).map Address.ipAddress

/-- The scan inside `Topology.LeaderIP`: first server name whose node is in
the datacenter; `none` models both the "node not found" and the
"no such dc" panics. -/
def leaderIPFrom (t : Topology) (datacenter : String) : List String → Option String
  | [] => none
  | name :: rest =>
    match t.nm name with
    | none => none
    | some n =>
      if n.datacenter = datacenter then n.localAddress else leaderIPFrom t datacenter rest

def Topology.leaderIP (t : Topology) (datacenter : String) : Option String :=
  leaderIPFrom t datacenter t.servers

/-- The scan inside `Topology.WANLeaderIP`, public-address form. -/
def wanLeaderIPFrom (t : Topology) (datacenter : String) : List String → Option String
  | [] => none
  | name :: rest =>
    match t.nm name with
    | none => none
    | some n =>
      if n.datacenter = datacenter then n.publicAddress else wanLeaderIPFrom t datacenter rest

def Topology.wanLeaderIP (t : Topology) (datacenter : String) : Option String :=
  wanLeaderIPFrom t datacenter t.servers

/-- The node sequence `Walk`/`WalkSilent` visit: `t.all` resolved through
the node map (every lookup succeeds for builder-produced topologies). -/
def Topology.nodesInOrder (t : Topology) : List Node := t.all.filterMap t.nm

/-- The nodes the builder synthesizes, in construction order. -/
def topoNodes (nodeConfigs : List (String × UserNodeConfig)) (shape : NetworkShape)
    (ds : List Datacenter) : List Node :=
  ds.flatMap (dcNodes nodeConfigs shape)

/-- All server nodes, in datacenter order then index order. -/
def topoServerNodes (shape : NetworkShape) (ds : List Datacenter) : List Node :=
  ds.flatMap (fun d => (List.range' 1 d.servers).map (serverNode shape d.name d.baseIP d.wanBaseIP))

/-- All client nodes, in datacenter order then index order. -/
def topoClientNodes (nodeConfigs : List (String × UserNodeConfig)) (shape : NetworkShape)
    (ds : List Datacenter) : List Node :=
  ds.flatMap (fun d => (List.range' 1 d.clients).map (clientNode nodeConfigs shape d.name d.baseIP d.wanBaseIP))

/-- `'-'` does not occur in the string (true of every valid datacenter
name, which matches `dc[0-9]+`). -/
def noDash (s : String) : Prop := ('-' : Char) ∉ s.data

/-- The facts validation establishes about the collected datacenter list:
names are valid (hence dash-free) and unique, and counts are positive. -/
def ValidDCs (ds : List Datacenter) : Prop :=
  (∀ d ∈ ds, (parseDCName d.name).isSome ∧ 1 ≤ d.servers ∧ 1 ≤ d.clients) ∧
  (ds.map Datacenter.name).Nodup

/-! ## Validation order (spec-side description, for claim C2) -/

/-- The per-datacenter validation outcome, in the code's check order:
server count, then client count, then the name pattern. -/
def checkDC (dc : String) (v : DatacenterSpec) : Option TopoError :=
  if v.servers ≤ 0 then some (.atLeastOneServer dc)
  else if v.clients ≤ 0 then some (.atLeastOneClient dc)
  else if (parseDCName dc).isSome then none
  else some (.invalidDCName dc)

/-- First configuration violation per the amended validation order: network
shape first, then primary-datacenter presence, then the per-datacenter
checks in map iteration order. -/
def specFirstViolation (uc : UserConfigTopology) : Option TopoError :=
  match parseNetworkShape uc.networkShape with
  | none => some (.unknownNetworkShape uc.networkShape)
  | some _ =>
    if (alookup uc.datacenters PrimaryDC).isSome then
      uc.datacenters.findSome? (fun p => checkDC p.1 p.2)
    else some .missingPrimaryDC

/-- The configuration error of a builder run, if any. -/
def errorOf {α : Type} : Except TopoError α → Option TopoError
  | .error e => some e
  | .ok _ => none

/-! ## Orchestration manifest dependency edges (gen.go, generateComposeFile
with the pingpong and mesh-gateway templates) -/

/-- The start-after edges (container name, dependency name) the compose
generator emits for one node: the agent depends on its pod and, for a
non-server, on `<dc>-server1`; a mesh-gateway container depends on the
agent; an application container depends on the agent and its sidecar on
the application. -/
def nodeEdges (n : Node) : List (String × String) :=
  let podName := n.name ++ "-pod"
  (([podName] ++ (if n.server then [] else [n.datacenter ++ "-server1"])).map
    (fun d => (n.name, d))) ++
  (if n.meshGateway then [(n.name ++ "-mesh-gateway", n.name)] else []) ++
  (match n.service with
   | some svc =>
     [(n.name ++ "-" ++ svc.name, n.name),
      (n.name ++ "-" ++ svc.name ++ "-sidecar", n.name ++ "-" ++ svc.name)]
   | none => [])

def composeEdges (t : Topology) : List (String × String) :=
  t.nodesInOrder.flatMap nodeEdges

/-- The dependency edges claim C8 asserts to be the whole edge set: the
same as `nodeEdges` but without the agent-on-pod edge. -/
def claimedNodeEdges (n : Node) : List (String × String) :=
  (if n.server then [] else [(n.name, n.datacenter ++ "-server1")]) ++
  (if n.meshGateway then [(n.name ++ "-mesh-gateway", n.name)] else []) ++
  (match n.service with
   | some svc =>
     [(n.name ++ "-" ++ svc.name, n.name),
      (n.name ++ "-" ++ svc.name ++ "-sidecar", n.name ++ "-" ++ svc.name)]
   | none => [])

def claimedEdges (t : Topology) : List (String × String) :=
  t.nodesInOrder.flatMap claimedNodeEdges

/-- Nonempty dependency chains through an edge list. -/
inductive DepPath (es : List (String × String)) : String → String → Prop
  | single {a b : String} : (a, b) ∈ es → DepPath es a b
  | cons {a b c : String} : (a, b) ∈ es → DepPath es b c → DepPath es a c

/-- A dependency graph is acyclic when no nonempty chain returns to its
start. -/
def Acyclic (es : List (String × String)) : Prop := ∀ a, ¬ DepPath es a a

/-- Last character of a string, used to separate the generated container
name families. -/
def lastChar (s : String) : Option Char := s.data.getLast?

/-- The pause-container names of a topology. -/
def podNames (t : Topology) : List String := t.all.map (fun y => y ++ "-pod")

/-- The application-container names of a topology. -/
def appNames (t : Topology) : List String :=
  t.nodesInOrder.filterMap (fun n => n.service.map (fun svc => n.name ++ "-" ++ svc.name))

/-- A rank on container names that every dependency edge strictly
decreases: pods, then server agents, client agents, applications, and
last sidecars and gateways. -/
def rankOf (t : Topology) (s : String) : Nat :=
  if s ∈ podNames t then 0
  else if s ∈ t.servers then 1
  else if s ∈ t.clients then 2
  else if s ∈ appNames t then 3
  else 4

/-! ## Prometheus scrape configuration (gen.go, generatePrometheusConfigFile) -/

structure PromJob where
  name : String
  metricsPath : String
  params : List (String × List String)
  targets : List String
  labels : List (String × String)
deriving DecidableEq, Repr

/-- `sort.Strings` (bytewise ascending). -/
def sortStrings (l : List String) : List String :=
  List.insertionSort (fun a b => strLe a b = true) l

/-- The label sort `sort.Slice(j.Labels, by Key)`. -/
def sortKVs (l : List (String × String)) : List (String × String) :=
  List.insertionSort (fun a b => strLe a.1 b.1 = true) l

/-- The `add` closure: on an existing job name, append the new targets to
that job and re-sort them; on a new name, sort the labels once and store
the job with sorted targets. -/
def addJob (jobs : List PromJob) (j : PromJob) : List PromJob :=
  if jobs.any (fun p => p.name == j.name) then
    jobs.map (fun p =>
      if p.name == j.name then { p with targets := sortStrings (p.targets ++ j.targets) } else p)
  else
    jobs ++ [{ j with labels := sortKVs j.labels, targets := sortStrings j.targets }]

/-- `net.JoinHostPort`. -/
def joinHostPort (host port : String) : String :=
  if host.data.contains ':' then "[" ++ host ++ "]:" ++ port else host ++ ":" ++ port

/-- The jobs the walk adds for one node.  `LocalAddress` always succeeds on
builder-produced nodes (claim C9), so the `getD` default is never used. -/
def nodeJobs (token : String) (n : Node) : List PromJob :=
  let addr := n.localAddress.getD ""
  if n.server then
    [{ name := "consul-servers-" ++ n.datacenter
       metricsPath := "/v1/agent/metrics"
       params := [("format", ["prometheus"]), ("token", [token])]
       targets := [joinHostPort addr "8500"]
       labels := [("dc", n.datacenter), ("role", "consul-server")] }]
  else
    [{ name := "consul-clients-" ++ n.datacenter
       metricsPath := "/v1/agent/metrics"
       params := [("format", ["prometheus"]), ("token", [token])]
       targets := [joinHostPort addr "8500"]
       labels := [("dc", n.datacenter), ("role", "consul-client")] }] ++
    (if n.meshGateway then
      [{ name := "mesh-gateways-" ++ n.datacenter
         metricsPath := "/metrics"
         params := []
         targets := [joinHostPort addr "9102"]
         labels := [("dc", n.datacenter), ("role", "mesh-gateway")] }]
    else
      match n.service with
      | some svc =>
        [{ name := svc.name ++ "-proxy"
           metricsPath := "/metrics"
           params := []
           targets := [joinHostPort addr "9102"]
           labels := [("dc", n.datacenter), ("role", svc.name ++ "-proxy")] }]
      | none => [])

/-- The job map after the walk, as an insertion-ordered list (Go map
iteration order is arbitrary; the final name sort cancels it since job
names are unique). -/
def promJobsRaw (t : Topology) (token : String) : List PromJob :=
  (t.nodesInOrder.flatMap (nodeJobs token)).foldl addJob []

/-- The shape invariants the `add` closure maintains on the job map:
unique job names, sorted targets, key-sorted labels. -/
def GoodJobs (jobs : List PromJob) : Prop :=
  (jobs.map PromJob.name).Nodup ∧
  ∀ j ∈ jobs, List.Sorted (fun a b : String => strLe a b = true) j.targets ∧
    List.Sorted (fun a b : String × String => strLe a.1 b.1 = true) j.labels

/-- The job list as rendered: sorted by job name. -/
def promJobs (t : Topology) (token : String) : List PromJob :=
  List.insertionSort (fun a b => strLe a.name b.name = true) (promJobsRaw t token)

/-! ## Concrete configurations for witnesses and counterexamples -/

def junkTopo : Topology := ⟨[], [], fun _ => none, [], .flat⟩

def topoOf (uc : UserConfigTopology) : Topology :=
  ((inferTopology uc).toOption).getD junkTopo

/-- The literal example of the spec: two datacenters, one server and two
clients each, flat shape. -/
def exCfg : UserConfigTopology :=
  { networkShape := "flat"
    datacenters := [("dc1", ⟨1, 2⟩), ("dc2", ⟨1, 2⟩)]
    nodeConfig := [] }

def exTopo : Topology := topoOf exCfg

/-- A configuration with two simultaneous violations: unknown network shape
and missing primary datacenter. -/
def c2Cfg : UserConfigTopology :=
  { networkShape := "bogus"
    datacenters := [("dc2", ⟨1, 1⟩)]
    nodeConfig := [] }

/-- A dual-shape configuration with overrides: a mesh gateway and an
upstream override. -/
def dualCfg : UserConfigTopology :=
  { networkShape := "dual"
    datacenters := [("dc1", ⟨1, 2⟩), ("dc2", ⟨1, 1⟩)]
    nodeConfig :=
      [("dc2-client1", { meshGateway := true }),
       ("dc1-client1", { upstreamName := "widget", upstreamDatacenter := "dc2" })] }

def dualTopo : Topology := topoOf dualCfg

/-- Two servers in dc1, for the Prometheus aggregation example. -/
def promCfg : UserConfigTopology :=
  { networkShape := "flat"
    datacenters := [("dc1", ⟨2, 1⟩)]
    nodeConfig := [] }

def promTopo : Topology := topoOf promCfg

/-- The example configuration with its datacenter map enumerated in the
opposite order. -/
def permCfg : UserConfigTopology :=
  { networkShape := "flat"
    datacenters := [("dc2", ⟨1, 2⟩), ("dc1", ⟨1, 2⟩)]
    nodeConfig := [] }

/-- The datacenter record determined by one input entry (what the
validation loop appends for it when it passes). -/
def dcOf (p : String × DatacenterSpec) : Datacenter :=
  match parseDCName p.1 with
  | some i => mkDatacenter p.1 i p.2
  | none => mkDatacenter p.1 0 p.2

/-! ## Lemmas: decimal rendering -/

theorem itoaData_fuelFree : ∀ (f g n : Nat), n < f → n < g → itoaData f n = itoaData g n := by
  intro f
  induction f with
  | zero => intro g n h; omega
  | succ f ih =>
    intro g n hf hg
    match g, hg with
    | g + 1, _ =>
      show itoaData (f + 1) n = itoaData (g + 1) n
      simp only [itoaData]
      by_cases h10 : n < 10
      · simp [h10]
      · have hdiv : n / 10 < n := Nat.div_lt_self (by omega) (by omega)
        simp only [h10, if_false]
        rw [ih g (n / 10) (by omega) (by omega)]

theorem itoaD_unfold (n : Nat) :
    itoaD n = if n < 10 then [digitChar n] else itoaD (n / 10) ++ [digitChar (n % 10)] := by
  show itoaData (n + 1) n = _
  simp only [itoaData]
  by_cases h10 : n < 10
  · simp [h10]
  · have hdiv : n / 10 < n := Nat.div_lt_self (by omega) (by omega)
    simp only [h10, if_false]
    rw [itoaData_fuelFree n (n / 10 + 1) (n / 10) (by omega) (by omega)]
    rfl

theorem digitVal_digitChar {m : Nat} (h : m < 10) : digitVal (digitChar m) = m := by
  interval_cases m <;> decide

theorem digitChar_isDigit {m : Nat} (h : m < 10) : (digitChar m).isDigit = true := by
  interval_cases m <;> decide

theorem digitsToNat_concat (xs : List Char) (c : Char) :
    digitsToNat (xs ++ [c]) = digitsToNat xs * 10 + digitVal c := by
  simp [digitsToNat, List.foldl_concat, Nat.mul_comm]

theorem digitsToNat_itoaD (n : Nat) : digitsToNat (itoaD n) = n := by
  induction n using Nat.strong_induction_on with
  | _ n ih =>
    rw [itoaD_unfold]
    by_cases h10 : n < 10
    · simp only [h10, if_true]
      show digitsToNat ([] ++ [digitChar n]) = n
      rw [digitsToNat_concat, digitVal_digitChar h10]
      simp [digitsToNat]
    · have hdiv : n / 10 < n := Nat.div_lt_self (by omega) (by omega)
      simp only [h10, if_false]
      rw [digitsToNat_concat, ih (n / 10) hdiv, digitVal_digitChar (Nat.mod_lt n (by omega))]
      omega

theorem itoaD_inj {m n : Nat} (h : itoaD m = itoaD n) : m = n := by
  have := digitsToNat_itoaD m
  rw [h, digitsToNat_itoaD] at this
  omega

theorem itoa_inj {m n : Nat} (h : itoa m = itoa n) : m = n := by
  apply itoaD_inj
  have := congrArg String.data h
  exact this

theorem itoaD_ne_nil (n : Nat) : itoaD n ≠ [] := by
  rw [itoaD_unfold]
  by_cases h10 : n < 10 <;> simp [h10]

theorem itoaD_all_digit (n : Nat) : ∀ c ∈ itoaD n, c.isDigit = true := by
  induction n using Nat.strong_induction_on with
  | _ n ih =>
    rw [itoaD_unfold]
    by_cases h10 : n < 10
    · simp only [h10, if_true]
      intro c hc
      simp only [List.mem_singleton] at hc
      subst hc
      exact digitChar_isDigit h10
    · have hdiv : n / 10 < n := Nat.div_lt_self (by omega) (by omega)
      simp only [h10, if_false]
      intro c hc
      rcases List.mem_append.mp hc with h | h
      · exact ih (n / 10) hdiv c h
      · simp only [List.mem_singleton] at h
        subst h
        exact digitChar_isDigit (Nat.mod_lt n (by omega))

theorem itoaD_getLast (n : Nat) : (itoaD n).getLast? = some (digitChar (n % 10)) := by
  rw [itoaD_unfold]
  by_cases h10 : n < 10
  · simp [h10, Nat.mod_eq_of_lt h10]
  · simp [h10, List.getLast?_concat]

/-! ## Lemmas: strings and generated names -/

theorem string_data_inj {a b : String} (h : a.data = b.data) : a = b :=
  congrArg String.mk h

theorem append_data (a b : String) : (a ++ b).data = a.data ++ b.data :=
  String.data_append a b

theorem splitDash :
    ∀ (a : List Char) {b xs ys : List Char}, ('-' : Char) ∉ a → ('-' : Char) ∉ b →
      a ++ '-' :: xs = b ++ '-' :: ys → a = b ∧ xs = ys := by
  intro a
  induction a with
  | nil =>
    intro b xs ys _ hb h
    cases b with
    | nil => simpa using h
    | cons c cs =>
      simp only [List.nil_append, List.cons_append, List.cons.injEq] at h
      rw [← h.1] at hb
      exact absurd (List.mem_cons_self _ _) hb
  | cons c cs ih =>
    intro b xs ys ha hb h
    cases b with
    | nil =>
      simp only [List.cons_append, List.nil_append, List.cons.injEq] at h
      rw [h.1] at ha
      exact absurd (List.mem_cons_self _ _) ha
    | cons d ds =>
      simp only [List.cons_append, List.cons.injEq] at h
      obtain ⟨hcd, hrest⟩ := h
      have ha' : ('-' : Char) ∉ cs := fun hm => ha (List.mem_cons_of_mem c hm)
      have hb' : ('-' : Char) ∉ ds := fun hm => hb (List.mem_cons_of_mem d hm)
      obtain ⟨h1, h2⟩ := ih ha' hb' hrest
      exact ⟨by rw [hcd, h1], h2⟩

theorem serverName_data (d : String) (k : Nat) :
    (serverName d k).data = d.data ++ '-' :: ('s' :: 'e' :: 'r' :: 'v' :: 'e' :: 'r' :: itoaD k) := by
  show ((d ++ "-server") ++ itoa k).data = _
  rw [append_data, append_data, List.append_assoc]
  rfl

theorem clientName_data (d : String) (k : Nat) :
    (clientName d k).data = d.data ++ '-' :: ('c' :: 'l' :: 'i' :: 'e' :: 'n' :: 't' :: itoaD k) := by
  show ((d ++ "-client") ++ itoa k).data = _
  rw [append_data, append_data, List.append_assoc]
  rfl

theorem serverName_inj {d e : String} {k m : Nat} (hd : noDash d) (he : noDash e)
    (h : serverName d k = serverName e m) : d = e ∧ k = m := by
  have hdata := congrArg String.data h
  rw [serverName_data, serverName_data] at hdata
  obtain ⟨h1, h2⟩ := splitDash d.data hd he hdata
  refine ⟨string_data_inj h1, itoaD_inj ?_⟩
  simpa using h2

theorem clientName_inj {d e : String} {k m : Nat} (hd : noDash d) (he : noDash e)
    (h : clientName d k = clientName e m) : d = e ∧ k = m := by
  have hdata := congrArg String.data h
  rw [clientName_data, clientName_data] at hdata
  obtain ⟨h1, h2⟩ := splitDash d.data hd he hdata
  refine ⟨string_data_inj h1, itoaD_inj ?_⟩
  simpa using h2

theorem serverName_ne_clientName {d e : String} {k m : Nat} (hd : noDash d) (he : noDash e) :
    serverName d k ≠ clientName e m := by
  intro h
  have hdata := congrArg String.data h
  rw [serverName_data, clientName_data] at hdata
  obtain ⟨-, h2⟩ := splitDash d.data hd he hdata
  simp at h2

theorem serverName_inj_k {d : String} {k m : Nat} (h : serverName d k = serverName d m) : k = m := by
  have hdata := congrArg String.data h
  rw [serverName_data, serverName_data] at hdata
  have := List.append_cancel_left hdata
  simp only [List.cons.injEq, true_and] at this
  exact itoaD_inj this

theorem clientName_inj_k {d : String} {k m : Nat} (h : clientName d k = clientName d m) : k = m := by
  have hdata := congrArg String.data h
  rw [clientName_data, clientName_data] at hdata
  have := List.append_cancel_left hdata
  simp only [List.cons.injEq, true_and] at this
  exact itoaD_inj this

theorem parseDCName_shape {dc : String} {i : Nat} (h : parseDCName dc = some i) :
    ∃ rest : List Char, dc.data = 'd' :: 'c' :: rest ∧ rest ≠ [] ∧
      rest.all Char.isDigit = true ∧ i = digitsToNat rest := by
  unfold parseDCName at h
  rcases hd : dc.data with _ | ⟨c1, rest1⟩
  · rw [hd] at h
    exact Option.noConfusion h
  · rcases rest1 with _ | ⟨c2, rest⟩
    · rw [hd] at h
      exact Option.noConfusion h
    · rw [hd] at h
      have h2 : (if c1 = 'd' ∧ c2 = 'c' ∧ rest ≠ [] ∧ rest.all Char.isDigit = true ∧
          digitsToNat rest ≤ maxGoInt then some (digitsToNat rest) else none) = some i := h
      by_cases hc : c1 = 'd' ∧ c2 = 'c' ∧ rest ≠ [] ∧ rest.all Char.isDigit = true ∧
          digitsToNat rest ≤ maxGoInt
      · rw [if_pos hc] at h2
        obtain ⟨e1, e2, e3, e4, -⟩ := hc
        subst e1
        subst e2
        exact ⟨rest, rfl, e3, e4, by simpa using h2.symm⟩
      · rw [if_neg hc] at h2
        exact Option.noConfusion h2

theorem parseDCName_noDash {dc : String} {i : Nat} (h : parseDCName dc = some i) : noDash dc := by
  obtain ⟨rest, hd, -, hdig, -⟩ := parseDCName_shape h
  intro hmem
  rw [hd] at hmem
  rcases List.mem_cons.mp hmem with h1 | h2
  · exact absurd h1 (by decide)
  · rcases List.mem_cons.mp h2 with h1 | hm
    · exact absurd h1 (by decide)
    · rw [List.all_eq_true] at hdig
      have := hdig _ hm
      simp at this

/-! ## Lemmas: the bytewise comparison is a total preorder -/

theorem charListLe_refl : ∀ a : List Char, charListLe a a = true := by
  intro a
  induction a with
  | nil => rfl
  | cons x xs ih => simpa [charListLe] using ih

theorem charListLe_total : ∀ a b : List Char, charListLe a b = true ∨ charListLe b a = true := by
  intro a
  induction a with
  | nil => intro b; left; rfl
  | cons x xs ih =>
    intro b
    cases b with
    | nil => right; rfl
    | cons y ys =>
      by_cases hxy : x = y
      · subst hxy
        rcases ih ys with h | h
        · left; simpa [charListLe] using h
        · right; simpa [charListLe] using h
      · rcases lt_trichotomy x y with h | h | h
        · left; simp [charListLe, hxy, h]
        · exact absurd h hxy
        · right
          have hyx : ¬y = x := fun he => hxy he.symm
          simp [charListLe, hyx, h]

theorem charListLe_trans :
    ∀ {a b c : List Char}, charListLe a b = true → charListLe b c = true →
      charListLe a c = true := by
  intro a
  induction a with
  | nil => intro b c _ _; rfl
  | cons x xs ih =>
    intro b c hab hbc
    cases b with
    | nil => simp [charListLe] at hab
    | cons y ys =>
      cases c with
      | nil => simp [charListLe] at hbc
      | cons z zs =>
        by_cases hxy : x = y <;> by_cases hyz : y = z
        · subst hxy; subst hyz
          simp only [charListLe, if_pos rfl] at hab hbc ⊢
          exact ih hab hbc
        · subst hxy
          simp only [charListLe, if_pos rfl, if_neg hyz] at hbc ⊢
          exact hbc
        · subst hyz
          simp only [charListLe, if_pos rfl, if_neg hxy] at hab ⊢
          exact hab
        · simp only [charListLe, if_neg hxy, if_neg hyz, decide_eq_true_eq] at hab hbc
          have hxz : x < z := lt_trans hab hbc
          simp [charListLe, ne_of_lt hxz, hxz]

theorem charListLe_antisymm :
    ∀ {a b : List Char}, charListLe a b = true → charListLe b a = true → a = b := by
  intro a
  induction a with
  | nil =>
    intro b _ hba
    cases b with
    | nil => rfl
    | cons y ys => simp [charListLe] at hba
  | cons x xs ih =>
    intro b hab hba
    cases b with
    | nil => simp [charListLe] at hab
    | cons y ys =>
      by_cases hxy : x = y
      · subst hxy
        simp only [charListLe, if_pos rfl] at hab hba
        rw [ih hab hba]
      · have hyx : ¬y = x := fun he => hxy he.symm
        simp only [charListLe, if_neg hxy, decide_eq_true_eq] at hab
        simp only [charListLe, if_neg hyx, decide_eq_true_eq] at hba
        exact absurd hba (lt_asymm hab)

theorem strLe_total (a b : String) : strLe a b = true ∨ strLe b a = true :=
  charListLe_total a.data b.data

theorem strLe_trans {a b c : String} (h1 : strLe a b = true) (h2 : strLe b c = true) :
    strLe a c = true :=
  charListLe_trans h1 h2

theorem strLe_antisymm {a b : String} (h1 : strLe a b = true) (h2 : strLe b a = true) : a = b :=
  string_data_inj (charListLe_antisymm h1 h2)

/-! ## Lemmas: the addNode fold -/

theorem foldl_addNode_networkShape (ns : List Node) (t0 : Topology) :
    (ns.foldl addNode t0).networkShape = t0.networkShape := by
  induction ns generalizing t0 with
  | nil => rfl
  | cons n ns ih =>
    rw [List.foldl_cons, ih]
    rfl

theorem foldl_addNode_dcs (ns : List Node) (t0 : Topology) :
    (ns.foldl addNode t0).dcs = t0.dcs := by
  induction ns generalizing t0 with
  | nil => rfl
  | cons n ns ih =>
    rw [List.foldl_cons, ih]
    rfl

theorem foldl_addNode_servers (ns : List Node) (t0 : Topology) :
    (ns.foldl addNode t0).servers =
      t0.servers ++ (ns.filter (fun n => n.server)).map Node.name := by
  induction ns generalizing t0 with
  | nil => simp
  | cons n ns ih =>
    rw [List.foldl_cons, ih]
    cases h : n.server <;>
      simp [addNode, h, List.filter_cons, List.append_assoc]

theorem foldl_addNode_clients (ns : List Node) (t0 : Topology) :
    (ns.foldl addNode t0).clients =
      t0.clients ++ (ns.filter (fun n => !n.server)).map Node.name := by
  induction ns generalizing t0 with
  | nil => simp
  | cons n ns ih =>
    rw [List.foldl_cons, ih]
    cases h : n.server <;>
      simp [addNode, h, List.filter_cons, List.append_assoc]

theorem foldl_addNode_nm (ns : List Node) (t0 : Topology) (k : String) :
    (ns.foldl addNode t0).nm k =
      match ns.reverse.find? (fun n => k == n.name) with
      | some n => some n
      | none => t0.nm k := by
  induction ns using List.reverseRecOn with
  | nil => simp
  | append_singleton ns n ih =>
    rw [List.foldl_append, List.foldl_cons, List.foldl_nil, List.reverse_append]
    simp only [List.reverse_singleton, List.singleton_append]
    by_cases h : k = n.name
    · rw [List.find?_cons_of_pos _ (by simpa using h)]
      show (if k = n.name then some n else (List.foldl addNode t0 ns).nm k) = some n
      rw [if_pos h]
    · rw [List.find?_cons_of_neg _ (by simpa using h)]
      show (if k = n.name then some n else (List.foldl addNode t0 ns).nm k) = _
      rw [if_neg h, ih]

theorem find?_name_unique {ns : List Node} (hnd : (ns.map Node.name).Nodup) {n : Node}
    (hn : n ∈ ns) : ns.find? (fun m => n.name == m.name) = some n := by
  induction ns with
  | nil => cases hn
  | cons m ms ih =>
    simp only [List.map_cons, List.nodup_cons] at hnd
    rcases List.mem_cons.mp hn with h | h
    · subst h
      rw [List.find?_cons_of_pos _ (by simp)]
    · have hne : n.name ≠ m.name := by
        intro he
        exact hnd.1 (he ▸ List.mem_map_of_mem Node.name h)
      rw [List.find?_cons_of_neg _ (by simpa using hne)]
      exact ih hnd.2 h

theorem nm_of_mem {t0 : Topology} {ns : List Node} (hnd : (ns.map Node.name).Nodup) {n : Node}
    (hn : n ∈ ns) : (ns.foldl addNode t0).nm n.name = some n := by
  rw [foldl_addNode_nm]
  have : ns.reverse.find? (fun m => n.name == m.name) = some n := by
    apply find?_name_unique
    · rw [List.map_reverse]
      exact List.nodup_reverse.mpr hnd
    · exact List.mem_reverse.mpr hn
  rw [this]

theorem nm_of_not_mem {t0 : Topology} {ns : List Node} {k : String}
    (h : k ∉ ns.map Node.name) : (ns.foldl addNode t0).nm k = t0.nm k := by
  rw [foldl_addNode_nm]
  have : ns.reverse.find? (fun n => k == n.name) = none := by
    rw [List.find?_eq_none]
    intro m hm
    have hmem : m.name ∈ ns.map Node.name :=
      List.mem_map_of_mem Node.name (List.mem_reverse.mp hm)
    have hne : k ≠ m.name := fun he => h (he ▸ hmem)
    simpa using hne
  rw [this]

/-! ## Lemmas: node construction -/

theorem serverNode_name (shape : NetworkShape) (dc b w : String) (k : Nat) :
    (serverNode shape dc b w k).name = serverName dc k := by
  cases shape <;> rfl

theorem serverNode_server (shape : NetworkShape) (dc b w : String) (k : Nat) :
    (serverNode shape dc b w k).server = true := by
  cases shape <;> rfl

theorem serverNode_datacenter (shape : NetworkShape) (dc b w : String) (k : Nat) :
    (serverNode shape dc b w k).datacenter = dc := by
  cases shape <;> rfl

theorem serverNode_index (shape : NetworkShape) (dc b w : String) (k : Nat) :
    (serverNode shape dc b w k).index = k - 1 := by
  cases shape <;> rfl

theorem serverNode_service (shape : NetworkShape) (dc b w : String) (k : Nat) :
    (serverNode shape dc b w k).service = none := by
  cases shape <;> rfl

theorem serverNode_meshGateway (shape : NetworkShape) (dc b w : String) (k : Nat) :
    (serverNode shape dc b w k).meshGateway = false := by
  cases shape <;> rfl

theorem clientNode_name (ncs : List (String × UserNodeConfig)) (shape : NetworkShape)
    (dc b w : String) (k : Nat) : (clientNode ncs shape dc b w k).name = clientName dc k := by
  cases shape <;> simp only [clientNode] <;> split <;> rfl

theorem clientNode_server (ncs : List (String × UserNodeConfig)) (shape : NetworkShape)
    (dc b w : String) (k : Nat) : (clientNode ncs shape dc b w k).server = false := by
  cases shape <;> simp only [clientNode] <;> split <;> rfl

theorem clientNode_datacenter (ncs : List (String × UserNodeConfig)) (shape : NetworkShape)
    (dc b w : String) (k : Nat) : (clientNode ncs shape dc b w k).datacenter = dc := by
  cases shape <;> simp only [clientNode] <;> split <;> rfl

theorem clientNode_index (ncs : List (String × UserNodeConfig)) (shape : NetworkShape)
    (dc b w : String) (k : Nat) : (clientNode ncs shape dc b w k).index = k - 1 := by
  cases shape <;> simp only [clientNode] <;> split <;> rfl

theorem serverNode_addresses_flat (dc b w : String) (k : Nat) :
    (serverNode .flat dc b w k).addresses =
      [{ network := "lan", ipAddress := b ++ "." ++ itoa (10 + k) }] := rfl

theorem serverNode_addresses_dual (dc b w : String) (k : Nat) :
    (serverNode .dual dc b w k).addresses =
      [{ network := dc, ipAddress := b ++ "." ++ itoa (10 + k) },
       { network := "wan", ipAddress := w ++ "." ++ itoa (10 + k) }] := rfl

theorem serverNode_localAddress (shape : NetworkShape) (dc b w : String) (k : Nat) :
    (serverNode shape dc b w k).localAddress = some (b ++ "." ++ itoa (10 + k)) := by
  cases shape <;>
    simp [Node.localAddress, serverNode_addresses_flat, serverNode_addresses_dual,
      serverNode_datacenter, List.find?_cons]

theorem clientNode_localAddress (ncs : List (String × UserNodeConfig)) (shape : NetworkShape)
    (dc b w : String) (k : Nat) :
    (clientNode ncs shape dc b w k).localAddress = some (b ++ "." ++ itoa (20 + k)) := by
  have hdc := clientNode_datacenter ncs shape dc b w k
  have haddr : ∃ tail : List Address,
      (clientNode ncs shape dc b w k).addresses =
        { network := shape.getNetworkName dc, ipAddress := b ++ "." ++ itoa (20 + k) } :: tail := by
    cases shape <;> simp only [clientNode] <;> split
    · exact ⟨[{ network := "wan", ipAddress := w ++ "." ++ itoa (20 + k) }], rfl⟩
    · exact ⟨[], rfl⟩
    · exact ⟨[], rfl⟩
    · exact ⟨[], rfl⟩
  obtain ⟨tail, htail⟩ := haddr
  unfold Node.localAddress
  rw [htail, hdc]
  cases shape <;> simp [NetworkShape.getNetworkName, List.find?_cons]

theorem serverNode_publicAddress_dual (dc b w : String) (k : Nat) (hdc : dc ≠ "wan") :
    (serverNode .dual dc b w k).publicAddress = some (w ++ "." ++ itoa (10 + k)) := by
  unfold Node.publicAddress
  rw [serverNode_addresses_dual]
  simp [List.find?_cons, hdc]

theorem serverNode_publicAddress_flat (dc b w : String) (k : Nat) :
    (serverNode .flat dc b w k).publicAddress = none := by
  unfold Node.publicAddress
  rw [serverNode_addresses_flat]
  simp [List.find?_cons]

/-! ## Lemmas: per-datacenter node lists -/

theorem dcNodes_eq (ncs : List (String × UserNodeConfig)) (shape : NetworkShape)
    (d : Datacenter) :
    dcNodes ncs shape d =
      (List.range' 1 d.servers).map (serverNode shape d.name d.baseIP d.wanBaseIP) ++
      (List.range' 1 d.clients).map (clientNode ncs shape d.name d.baseIP d.wanBaseIP) := rfl

theorem dcNodes_names (ncs : List (String × UserNodeConfig)) (shape : NetworkShape)
    (d : Datacenter) :
    (dcNodes ncs shape d).map Node.name =
      (List.range' 1 d.servers).map (serverName d.name) ++
      (List.range' 1 d.clients).map (clientName d.name) := by
  rw [dcNodes_eq, List.map_append, List.map_map, List.map_map]
  congr 1
  · apply List.map_congr_left
    intro k _
    exact serverNode_name shape d.name d.baseIP d.wanBaseIP k
  · apply List.map_congr_left
    intro k _
    exact clientNode_name ncs shape d.name d.baseIP d.wanBaseIP k

theorem dcNodes_filter_server (ncs : List (String × UserNodeConfig)) (shape : NetworkShape)
    (d : Datacenter) :
    (dcNodes ncs shape d).filter (fun n => n.server) =
      (List.range' 1 d.servers).map (serverNode shape d.name d.baseIP d.wanBaseIP) := by
  rw [dcNodes_eq, List.filter_append]
  have h1 : ((List.range' 1 d.servers).map
      (serverNode shape d.name d.baseIP d.wanBaseIP)).filter (fun n => n.server) =
      (List.range' 1 d.servers).map (serverNode shape d.name d.baseIP d.wanBaseIP) := by
    apply List.filter_eq_self.mpr
    intro n hn
    obtain ⟨k, -, hk⟩ := List.mem_map.mp hn
    rw [← hk]
    exact serverNode_server shape d.name d.baseIP d.wanBaseIP k
  have h2 : ((List.range' 1 d.clients).map
      (clientNode ncs shape d.name d.baseIP d.wanBaseIP)).filter (fun n => n.server) = [] := by
    rw [List.filter_eq_nil_iff]
    intro n hn
    obtain ⟨k, -, hk⟩ := List.mem_map.mp hn
    rw [← hk]
    simp [clientNode_server]
  rw [h1, h2, List.append_nil]

theorem dcNodes_filter_client (ncs : List (String × UserNodeConfig)) (shape : NetworkShape)
    (d : Datacenter) :
    (dcNodes ncs shape d).filter (fun n => !n.server) =
      (List.range' 1 d.clients).map (clientNode ncs shape d.name d.baseIP d.wanBaseIP) := by
  rw [dcNodes_eq, List.filter_append]
  have h1 : ((List.range' 1 d.servers).map
      (serverNode shape d.name d.baseIP d.wanBaseIP)).filter (fun n => !n.server) = [] := by
    rw [List.filter_eq_nil_iff]
    intro n hn
    obtain ⟨k, -, hk⟩ := List.mem_map.mp hn
    rw [← hk]
    simp [serverNode_server]
  have h2 : ((List.range' 1 d.clients).map
      (clientNode ncs shape d.name d.baseIP d.wanBaseIP)).filter (fun n => !n.server) =
      (List.range' 1 d.clients).map (clientNode ncs shape d.name d.baseIP d.wanBaseIP) := by
    apply List.filter_eq_self.mpr
    intro n hn
    obtain ⟨k, -, hk⟩ := List.mem_map.mp hn
    rw [← hk]
    simp [clientNode_server]
  rw [h1, h2, List.nil_append]

theorem dcNodes_names_nodup (ncs : List (String × UserNodeConfig)) (shape : NetworkShape)
    {d : Datacenter} (hd : noDash d.name) :
    ((dcNodes ncs shape d).map Node.name).Nodup := by
  rw [dcNodes_names]
  apply List.Nodup.append
  · apply List.Nodup.map_on
    · intro x _ y _ hxy
      exact serverName_inj_k hxy
    · exact List.nodup_range' _ _ _
  · apply List.Nodup.map_on
    · intro x _ y _ hxy
      exact clientName_inj_k hxy
    · exact List.nodup_range' _ _ _
  · intro a ha hb
    obtain ⟨k, -, hk⟩ := List.mem_map.mp ha
    obtain ⟨m, -, hm⟩ := List.mem_map.mp hb
    rw [← hk] at hm
    exact serverName_ne_clientName hd hd hm.symm

theorem topoNodes_cons (ncs : List (String × UserNodeConfig)) (shape : NetworkShape)
    (d : Datacenter) (ds : List Datacenter) :
    topoNodes ncs shape (d :: ds) = dcNodes ncs shape d ++ topoNodes ncs shape ds := by
  unfold topoNodes
  rw [List.flatMap_cons]

theorem topoNodes_names_nodup (ncs : List (String × UserNodeConfig)) (shape : NetworkShape)
    {ds : List Datacenter}
    (hv : ∀ d ∈ ds, noDash d.name) (hnd : (ds.map Datacenter.name).Nodup) :
    ((topoNodes ncs shape ds).map Node.name).Nodup := by
  unfold topoNodes
  rw [List.map_flatMap]
  rw [List.nodup_flatMap]
  constructor
  · intro d hd
    exact dcNodes_names_nodup ncs shape (hv d hd)
  · have hp : List.Pairwise (fun a b : Datacenter => a.name ≠ b.name) ds :=
      List.pairwise_map.mp hnd
    apply hp.imp_of_mem
    intro a b ha hb hne
    intro x hxa hxb
    simp only at hxa hxb
    rw [dcNodes_names] at hxa hxb
    have hda := hv a ha
    have hdb := hv b hb
    rcases List.mem_append.mp hxa with h1 | h1 <;> rcases List.mem_append.mp hxb with h2 | h2 <;>
      obtain ⟨k, -, hk⟩ := List.mem_map.mp h1 <;> obtain ⟨m, -, hm⟩ := List.mem_map.mp h2 <;>
      rw [← hk] at hm
    · exact hne ((serverName_inj hdb hda hm).1.symm)
    · exact serverName_ne_clientName hda hdb hm.symm
    · exact serverName_ne_clientName hdb hda hm
    · exact hne ((clientName_inj hdb hda hm).1.symm)

/-! ## Lemmas: validation loop and collected datacenters -/

theorem buildDCs_ok {l : List (String × DatacenterSpec)} {ds : List Datacenter}
    (h : buildDCs l = .ok ds) :
    List.Forall₂ (fun (p : String × DatacenterSpec) (d : Datacenter) =>
      parseDCName p.1 = some d.index ∧ d = mkDatacenter p.1 d.index p.2 ∧
      1 ≤ p.2.servers ∧ 1 ≤ p.2.clients) l ds := by
  induction l generalizing ds with
  | nil =>
    simp only [buildDCs] at h
    cases h
    exact List.Forall₂.nil
  | cons p rest ih =>
    obtain ⟨dc, v⟩ := p
    simp only [buildDCs] at h
    split at h
    next => exact Except.noConfusion h
    next hs =>
      split at h
      next => exact Except.noConfusion h
      next hc =>
        have hs2 : 1 ≤ v.servers := by omega
        have hc2 : 1 ≤ v.clients := by omega
        cases hp : parseDCName dc with
        | none =>
          rw [hp] at h
          exact Except.noConfusion h
        | some i =>
          rw [hp] at h
          cases hb : buildDCs rest with
          | error e =>
            rw [hb] at h
            exact Except.noConfusion h
          | ok ds2 =>
            rw [hb] at h
            cases h
            exact List.Forall₂.cons ⟨hp, rfl, hs2, hc2⟩ (ih hb)

theorem forall₂_dc_names {l : List (String × DatacenterSpec)} {ds : List Datacenter}
    (h : List.Forall₂ (fun (p : String × DatacenterSpec) (d : Datacenter) =>
      parseDCName p.1 = some d.index ∧ d = mkDatacenter p.1 d.index p.2 ∧
      1 ≤ p.2.servers ∧ 1 ≤ p.2.clients) l ds) :
    ds.map Datacenter.name = l.map Prod.fst := by
  induction h with
  | nil => rfl
  | cons hpd _ ih =>
    obtain ⟨-, hd, -, -⟩ := hpd
    simp only [List.map_cons, List.cons.injEq]
    exact ⟨by rw [hd]; rfl, ih⟩

theorem forall₂_dc_mem {l : List (String × DatacenterSpec)} {ds : List Datacenter}
    (h : List.Forall₂ (fun (p : String × DatacenterSpec) (d : Datacenter) =>
      parseDCName p.1 = some d.index ∧ d = mkDatacenter p.1 d.index p.2 ∧
      1 ≤ p.2.servers ∧ 1 ≤ p.2.clients) l ds) {d : Datacenter} (hd : d ∈ ds) :
    parseDCName d.name = some d.index ∧ 1 ≤ d.servers ∧ 1 ≤ d.clients ∧
      d.baseIP = "10.0." ++ itoa d.index ∧ d.wanBaseIP = "10.1." ++ itoa d.index := by
  induction h with
  | nil => cases hd
  | cons hpd _ ih =>
    rcases List.mem_cons.mp hd with he | he
    · obtain ⟨hp, hmk, hs, hc⟩ := hpd
      subst he
      rw [hmk]
      exact ⟨hp, hs, hc, rfl, rfl⟩
    · exact ih he

theorem buildDCs_names {l : List (String × DatacenterSpec)} {ds : List Datacenter}
    (h : buildDCs l = .ok ds) : ds.map Datacenter.name = l.map Prod.fst :=
  forall₂_dc_names (buildDCs_ok h)

theorem buildDCs_mem {l : List (String × DatacenterSpec)} {ds : List Datacenter}
    (h : buildDCs l = .ok ds) {d : Datacenter} (hd : d ∈ ds) :
    parseDCName d.name = some d.index ∧ 1 ≤ d.servers ∧ 1 ≤ d.clients ∧
      d.baseIP = "10.0." ++ itoa d.index ∧ d.wanBaseIP = "10.1." ++ itoa d.index :=
  forall₂_dc_mem (buildDCs_ok h) hd

theorem buildDCs_valid {l : List (String × DatacenterSpec)} {ds : List Datacenter}
    (hn : (l.map Prod.fst).Nodup) (h : buildDCs l = .ok ds) : ValidDCs ds := by
  constructor
  · intro d hd
    obtain ⟨hp, hs, hc, -, -⟩ := buildDCs_mem h hd
    exact ⟨by rw [hp]; rfl, hs, hc⟩
  · rw [buildDCs_names h]
    exact hn

theorem sortDCs_perm (ds : List Datacenter) : List.Perm (sortDCs ds) ds :=
  List.perm_insertionSort _ ds

theorem sortDCs_valid {ds : List Datacenter} (hv : ValidDCs ds) : ValidDCs (sortDCs ds) := by
  obtain ⟨h1, h2⟩ := hv
  constructor
  · intro d hd
    exact h1 d ((sortDCs_perm ds).mem_iff.mp hd)
  · exact (((sortDCs_perm ds).map Datacenter.name).nodup_iff).mpr h2

theorem sortDCs_sorted (ds : List Datacenter) :
    List.Sorted (fun a b : Datacenter => strLe a.name b.name = true) (sortDCs ds) := by
  haveI : IsTotal Datacenter (fun a b => strLe a.name b.name = true) :=
    ⟨fun a b => strLe_total a.name b.name⟩
  haveI : IsTrans Datacenter (fun a b => strLe a.name b.name = true) :=
    ⟨fun _ _ _ => strLe_trans⟩
  exact List.sorted_insertionSort _ ds

theorem inferTopology_ok_elim {uc : UserConfigTopology} {t : Topology}
    (h : inferTopology uc = .ok t) :
    ∃ shape ds, parseNetworkShape uc.networkShape = some shape ∧
      (alookup uc.datacenters PrimaryDC).isSome = true ∧
      buildDCs uc.datacenters = .ok ds ∧ t = buildTopo uc.nodeConfig shape ds := by
  unfold inferTopology at h
  split at h
  next => exact Except.noConfusion h
  next shape hp =>
    split at h
    next hprim =>
      split at h
      next e hb => exact Except.noConfusion h
      next ds hb =>
        cases h
        exact ⟨shape, ds, hp, hprim, hb, rfl⟩
    next => exact Except.noConfusion h

/-! ## Lemmas: the built topology -/

theorem foldl_forDC (ncs : List (String × UserNodeConfig)) (shape : NetworkShape)
    (ds : List Datacenter) (t0 : Topology) :
    ds.foldl (forDC ncs shape) t0 = (topoNodes ncs shape ds).foldl addNode t0 := by
  induction ds generalizing t0 with
  | nil => rfl
  | cons d ds ih =>
    rw [List.foldl_cons, ih, topoNodes_cons, List.foldl_append]
    rfl

theorem buildTopo_eq (ncs : List (String × UserNodeConfig)) (shape : NetworkShape)
    (ds : List Datacenter) :
    buildTopo ncs shape ds =
      (topoNodes ncs shape (sortDCs ds)).foldl addNode
        { servers := []
          clients := []
          nm := fun _ => none
          dcs := sortDCs ds
          networkShape := shape } := by
  unfold buildTopo
  rw [foldl_forDC]

theorem buildTopo_networkShape (ncs : List (String × UserNodeConfig)) (shape : NetworkShape)
    (ds : List Datacenter) : (buildTopo ncs shape ds).networkShape = shape := by
  rw [buildTopo_eq, foldl_addNode_networkShape]

theorem buildTopo_dcs (ncs : List (String × UserNodeConfig)) (shape : NetworkShape)
    (ds : List Datacenter) : (buildTopo ncs shape ds).dcs = sortDCs ds := by
  rw [buildTopo_eq, foldl_addNode_dcs]

theorem topoNodes_filter_server (ncs : List (String × UserNodeConfig)) (shape : NetworkShape)
    (ds : List Datacenter) :
    (topoNodes ncs shape ds).filter (fun n => n.server) = topoServerNodes shape ds := by
  induction ds with
  | nil => rfl
  | cons d ds ih =>
    rw [topoNodes_cons, List.filter_append, ih, dcNodes_filter_server]
    rfl

theorem topoNodes_filter_client (ncs : List (String × UserNodeConfig)) (shape : NetworkShape)
    (ds : List Datacenter) :
    (topoNodes ncs shape ds).filter (fun n => !n.server) = topoClientNodes ncs shape ds := by
  induction ds with
  | nil => rfl
  | cons d ds ih =>
    rw [topoNodes_cons, List.filter_append, ih, dcNodes_filter_client]
    rfl

theorem buildTopo_servers (ncs : List (String × UserNodeConfig)) (shape : NetworkShape)
    (ds : List Datacenter) :
    (buildTopo ncs shape ds).servers = (topoServerNodes shape (sortDCs ds)).map Node.name := by
  rw [buildTopo_eq, foldl_addNode_servers, topoNodes_filter_server]
  rfl

theorem buildTopo_clients (ncs : List (String × UserNodeConfig)) (shape : NetworkShape)
    (ds : List Datacenter) :
    (buildTopo ncs shape ds).clients =
      (topoClientNodes ncs shape (sortDCs ds)).map Node.name := by
  rw [buildTopo_eq, foldl_addNode_clients, topoNodes_filter_client]
  rfl

theorem buildTopo_nm_of_mem (ncs : List (String × UserNodeConfig)) (shape : NetworkShape)
    {ds : List Datacenter} (hv : ValidDCs ds) {n : Node}
    (hn : n ∈ topoNodes ncs shape (sortDCs ds)) :
    (buildTopo ncs shape ds).nm n.name = some n := by
  rw [buildTopo_eq]
  apply nm_of_mem _ hn
  obtain ⟨h1, h2⟩ := sortDCs_valid hv
  apply topoNodes_names_nodup ncs shape _ h2
  intro d hd
  obtain ⟨hp, -, -⟩ := h1 d hd
  rw [Option.isSome_iff_exists] at hp
  obtain ⟨i, hp⟩ := hp
  exact parseDCName_noDash hp

theorem buildTopo_nm_of_not_mem (ncs : List (String × UserNodeConfig)) (shape : NetworkShape)
    {ds : List Datacenter} {k : String}
    (hk : k ∉ (topoNodes ncs shape (sortDCs ds)).map Node.name) :
    (buildTopo ncs shape ds).nm k = none := by
  rw [buildTopo_eq, nm_of_not_mem hk]

theorem ValidDCs_noDash {ds : List Datacenter} (hv : ValidDCs ds) :
    ∀ d ∈ ds, noDash d.name := by
  intro d hd
  obtain ⟨hp, -, -⟩ := hv.1 d hd
  rw [Option.isSome_iff_exists] at hp
  obtain ⟨i, hp⟩ := hp
  exact parseDCName_noDash hp

theorem buildTopo_names_nodup (ncs : List (String × UserNodeConfig)) (shape : NetworkShape)
    {ds : List Datacenter} (hv : ValidDCs ds) :
    ((topoNodes ncs shape (sortDCs ds)).map Node.name).Nodup := by
  have hv2 := sortDCs_valid hv
  exact topoNodes_names_nodup ncs shape (ValidDCs_noDash hv2) hv2.2

theorem filterMap_nm_of_map_name {f : String → Option Node} {ms : List Node}
    (h : ∀ n ∈ ms, f n.name = some n) : (ms.map Node.name).filterMap f = ms := by
  induction ms with
  | nil => rfl
  | cons n ns ih =>
    rw [List.map_cons, List.filterMap_cons, h n (List.mem_cons_self n ns),
      ih (fun m hm => h m (List.mem_cons_of_mem n hm))]

theorem mem_topoNodes_of_server {ncs : List (String × UserNodeConfig)} {shape : NetworkShape}
    {ds : List Datacenter} {n : Node} (h : n ∈ topoServerNodes shape ds) :
    n ∈ topoNodes ncs shape ds := by
  unfold topoServerNodes at h
  unfold topoNodes
  rw [List.mem_flatMap] at h ⊢
  obtain ⟨d, hd, hn⟩ := h
  refine ⟨d, hd, ?_⟩
  rw [dcNodes_eq]
  exact List.mem_append_left _ hn

theorem mem_topoNodes_of_client {ncs : List (String × UserNodeConfig)} {shape : NetworkShape}
    {ds : List Datacenter} {n : Node} (h : n ∈ topoClientNodes ncs shape ds) :
    n ∈ topoNodes ncs shape ds := by
  unfold topoClientNodes at h
  unfold topoNodes
  rw [List.mem_flatMap] at h ⊢
  obtain ⟨d, hd, hn⟩ := h
  refine ⟨d, hd, ?_⟩
  rw [dcNodes_eq]
  exact List.mem_append_right _ hn

theorem buildTopo_nodesInOrder (ncs : List (String × UserNodeConfig)) (shape : NetworkShape)
    {ds : List Datacenter} (hv : ValidDCs ds) :
    (buildTopo ncs shape ds).nodesInOrder =
      topoServerNodes shape (sortDCs ds) ++ topoClientNodes ncs shape (sortDCs ds) := by
  unfold Topology.nodesInOrder Topology.all
  rw [buildTopo_servers, buildTopo_clients, List.filterMap_append]
  congr 1
  · apply filterMap_nm_of_map_name
    intro n hn
    exact buildTopo_nm_of_mem ncs shape hv (mem_topoNodes_of_server hn)
  · apply filterMap_nm_of_map_name
    intro n hn
    exact buildTopo_nm_of_mem ncs shape hv (mem_topoNodes_of_client hn)

theorem forall₂_dc_left_mem {l : List (String × DatacenterSpec)} {ds : List Datacenter}
    (h : List.Forall₂ (fun (p : String × DatacenterSpec) (d : Datacenter) =>
      parseDCName p.1 = some d.index ∧ d = mkDatacenter p.1 d.index p.2 ∧
      1 ≤ p.2.servers ∧ 1 ≤ p.2.clients) l ds) {p : String × DatacenterSpec} (hp : p ∈ l) :
    ∃ d ∈ ds, parseDCName p.1 = some d.index ∧ d = mkDatacenter p.1 d.index p.2 := by
  induction h with
  | nil => cases hp
  | cons hpd _ ih =>
    rcases List.mem_cons.mp hp with he | he
    · subst he
      exact ⟨_, List.mem_cons_self _ _, hpd.1, hpd.2.1⟩
    · obtain ⟨d, hd, hres⟩ := ih he
      exact ⟨d, List.mem_cons_of_mem _ hd, hres⟩

theorem buildDCs_left_mem {l : List (String × DatacenterSpec)} {ds : List Datacenter}
    (h : buildDCs l = .ok ds) {p : String × DatacenterSpec} (hp : p ∈ l) :
    ∃ d ∈ ds, parseDCName p.1 = some d.index ∧ d = mkDatacenter p.1 d.index p.2 :=
  forall₂_dc_left_mem (buildDCs_ok h) hp

/-! ## Lemmas: the leader scans -/

theorem leaderIPFrom_spec {t : Topology} {dcn : String} {ns : List Node}
    (hnm : ∀ n ∈ ns, t.nm n.name = some n) :
    leaderIPFrom t dcn (ns.map Node.name) =
      match ns.find? (fun n => n.datacenter == dcn) with
      | some n => n.localAddress
      | none => none := by
  induction ns with
  | nil => rfl
  | cons n ns ih =>
    rw [List.map_cons]
    show (match t.nm n.name with
      | none => none
      | some m => if m.datacenter = dcn then m.localAddress else leaderIPFrom t dcn (ns.map Node.name)) = _
    rw [hnm n (List.mem_cons_self n ns)]
    by_cases h : n.datacenter = dcn
    · rw [List.find?_cons_of_pos _ (by simpa using h)]
      show (if n.datacenter = dcn then n.localAddress
        else leaderIPFrom t dcn (ns.map Node.name)) = n.localAddress
      rw [if_pos h]
    · rw [List.find?_cons_of_neg _ (by simpa using h)]
      show (if n.datacenter = dcn then n.localAddress
        else leaderIPFrom t dcn (ns.map Node.name)) = _
      rw [if_neg h]
      exact ih (fun m hm => hnm m (List.mem_cons_of_mem n hm))

theorem wanLeaderIPFrom_spec {t : Topology} {dcn : String} {ns : List Node}
    (hnm : ∀ n ∈ ns, t.nm n.name = some n) :
    wanLeaderIPFrom t dcn (ns.map Node.name) =
      match ns.find? (fun n => n.datacenter == dcn) with
      | some n => n.publicAddress
      | none => none := by
  induction ns with
  | nil => rfl
  | cons n ns ih =>
    rw [List.map_cons]
    show (match t.nm n.name with
      | none => none
      | some m => if m.datacenter = dcn then m.publicAddress else wanLeaderIPFrom t dcn (ns.map Node.name)) = _
    rw [hnm n (List.mem_cons_self n ns)]
    by_cases h : n.datacenter = dcn
    · rw [List.find?_cons_of_pos _ (by simpa using h)]
      show (if n.datacenter = dcn then n.publicAddress
        else wanLeaderIPFrom t dcn (ns.map Node.name)) = n.publicAddress
      rw [if_pos h]
    · rw [List.find?_cons_of_neg _ (by simpa using h)]
      show (if n.datacenter = dcn then n.publicAddress
        else wanLeaderIPFrom t dcn (ns.map Node.name)) = _
      rw [if_neg h]
      exact ih (fun m hm => hnm m (List.mem_cons_of_mem n hm))

theorem find?_server_dc {shape : NetworkShape} {ds : List Datacenter} {d : Datacenter}
    (hnd : (ds.map Datacenter.name).Nodup) (hd : d ∈ ds) (hs : 1 ≤ d.servers) :
    (topoServerNodes shape ds).find? (fun n => n.datacenter == d.name) =
      some (serverNode shape d.name d.baseIP d.wanBaseIP 1) := by
  induction ds with
  | nil => cases hd
  | cons d0 ds ih =>
    have hflat : topoServerNodes shape (d0 :: ds) =
        (List.range' 1 d0.servers).map (serverNode shape d0.name d0.baseIP d0.wanBaseIP) ++
        topoServerNodes shape ds := by
      unfold topoServerNodes
      rw [List.flatMap_cons]
    rw [hflat, List.find?_append]
    simp only [List.map_cons, List.nodup_cons] at hnd
    rcases List.mem_cons.mp hd with he | he
    · subst he
      obtain ⟨m, hm⟩ : ∃ m, d.servers = m + 1 := ⟨d.servers - 1, by omega⟩
      rw [hm, List.range'_succ, List.map_cons]
      rw [List.find?_cons_of_pos _ (by simp [serverNode_datacenter])]
      simp
    · have hne : d.name ≠ d0.name := by
        intro he2
        exact hnd.1 (he2 ▸ List.mem_map_of_mem Datacenter.name he)
      have hnone : ((List.range' 1 d0.servers).map
          (serverNode shape d0.name d0.baseIP d0.wanBaseIP)).find?
          (fun n => n.datacenter == d.name) = none := by
        rw [List.find?_eq_none]
        intro n hn
        obtain ⟨k, -, hk⟩ := List.mem_map.mp hn
        rw [← hk]
        simp [serverNode_datacenter]
        exact fun he2 => hne (he2.symm)
      rw [hnone, ih hnd.2 he]
      simp

/-! ## Lemmas: validation error order -/

theorem errorOf_buildDCs (l : List (String × DatacenterSpec)) :
    errorOf (buildDCs l) = l.findSome? (fun p => checkDC p.1 p.2) := by
  induction l with
  | nil => rfl
  | cons p rest ih =>
    obtain ⟨dc, v⟩ := p
    simp only [buildDCs, List.findSome?_cons]
    by_cases hs : v.servers ≤ 0
    · rw [show checkDC dc v = some (.atLeastOneServer dc) by simp [checkDC, hs]]
      rw [if_pos hs]
      rfl
    · rw [if_neg hs]
      by_cases hc : v.clients ≤ 0
      · rw [show checkDC dc v = some (.atLeastOneClient dc) by simp [checkDC, hs, hc]]
        rw [if_pos hc]
        rfl
      · rw [if_neg hc]
        cases hp : parseDCName dc with
        | none =>
          rw [show checkDC dc v = some (.invalidDCName dc) by simp [checkDC, hs, hc, hp]]
          rfl
        | some i =>
          rw [show checkDC dc v = none by simp [checkDC, hs, hc, hp]]
          cases hb : buildDCs rest with
          | error e =>
            rw [hb] at ih
            rw [← ih]
          | ok ds =>
            rw [hb] at ih
            rw [← ih]
            rfl

/-- C2 (amended): the builder validates fail-fast and reports exactly the
first violation, but in this order: the network shape first, then the
primary datacenter's presence, then per datacenter (in map iteration
order) the server count, the client count, and last the name pattern. -/
theorem c2_validation_order (uc : UserConfigTopology) :
    errorOf (inferTopology uc) = specFirstViolation uc := by
  unfold inferTopology specFirstViolation
  split
  next => rfl
  next shape hp =>
    by_cases hprim : (alookup uc.datacenters PrimaryDC).isSome = true
    · rw [if_pos hprim, if_pos hprim, ← errorOf_buildDCs]
      cases hb : buildDCs uc.datacenters with
      | error e => rfl
      | ok ds => rfl
    · rw [if_neg hprim, if_neg hprim]
      rfl

/-- C2 counterexample: a configuration violating both the primary-presence
rule and the shape rule is reported with the shape error, not the
primary-datacenter error the claim's order (primary first) dictates. -/
theorem c2_counterexample :
    inferTopology c2Cfg = .error (.unknownNetworkShape "bogus") ∧
    inferTopology c2Cfg ≠ .error .missingPrimaryDC := by
  constructor
  · rfl
  · intro h
    rw [show inferTopology c2Cfg = .error (.unknownNetworkShape "bogus") from rfl] at h
    simp at h

/-- C10: the empty network-shape selector parses exactly like "flat", so
the builder accepts it and produces the identical result on any
configuration. -/
theorem c10_empty_shape_is_flat :
    parseNetworkShape "" = some .flat ∧ parseNetworkShape "flat" = some .flat ∧
    ∀ (ds : List (String × DatacenterSpec)) (ncs : List (String × UserNodeConfig)),
      inferTopology ⟨"", ds, ncs⟩ = inferTopology ⟨"flat", ds, ncs⟩ := by
  refine ⟨rfl, rfl, ?_⟩
  intro ds ncs
  rfl

/-! ## Claim C1: deterministic addressing under the flat shape -/

/-- C1: in a successfully built topology under the flat shape, the server
with 1-based index k of a datacenter whose name parses to N has local IP
`10.0.N.(10+k)`, and the client with index k has `10.0.N.(20+k)`. -/
theorem c1_flat_addressing {uc : UserConfigTopology} {t : Topology}
    (hn : (uc.datacenters.map Prod.fst).Nodup)
    (hok : inferTopology uc = .ok t)
    (hshape : parseNetworkShape uc.networkShape = some .flat)
    {dcn : String} {v : DatacenterSpec} {N : Nat}
    (hmem : (dcn, v) ∈ uc.datacenters) (hparse : parseDCName dcn = some N) :
    (∀ k, 1 ≤ k → k ≤ v.servers →
      ((t.node (serverName dcn k)).bind Node.localAddress) =
        some ("10.0." ++ itoa N ++ "." ++ itoa (10 + k))) ∧
    (∀ k, 1 ≤ k → k ≤ v.clients →
      ((t.node (clientName dcn k)).bind Node.localAddress) =
        some ("10.0." ++ itoa N ++ "." ++ itoa (20 + k))) := by
  obtain ⟨shape, ds, hp, -, hb, ht⟩ := inferTopology_ok_elim hok
  have hflat : shape = .flat := by
    rw [hshape] at hp
    exact ((Option.some.injEq _ _).mp hp).symm
  subst hflat
  subst ht
  have hv : ValidDCs ds := buildDCs_valid hn hb
  obtain ⟨d, hd, hpi, hdd⟩ := buildDCs_left_mem hb hmem
  have hdname : d.name = dcn := by rw [hdd]; rfl
  have hNi : N = d.index := by
    rw [hparse] at hpi
    exact (Option.some.injEq _ _).mp hpi
  have hbase : d.baseIP = "10.0." ++ itoa d.index := by rw [hdd]; rfl
  have hd2 : d ∈ sortDCs ds := (sortDCs_perm ds).mem_iff.mpr hd
  constructor
  · intro k hk1 hk2
    have hks : k ≤ d.servers := by
      rw [hdd]
      exact hk2
    have hmem2 : serverNode .flat d.name d.baseIP d.wanBaseIP k ∈
        topoNodes uc.nodeConfig .flat (sortDCs ds) := by
      unfold topoNodes
      rw [List.mem_flatMap]
      refine ⟨d, hd2, ?_⟩
      rw [dcNodes_eq]
      apply List.mem_append_left
      exact List.mem_map_of_mem _ (List.mem_range'_1.mpr ⟨hk1, by omega⟩)
    have hnm := buildTopo_nm_of_mem uc.nodeConfig .flat hv hmem2
    rw [serverNode_name] at hnm
    show ((buildTopo uc.nodeConfig NetworkShape.flat ds).nm (serverName dcn k)).bind
      Node.localAddress = _
    rw [← hdname, hnm]
    show (serverNode .flat d.name d.baseIP d.wanBaseIP k).localAddress = _
    rw [serverNode_localAddress, hbase, hNi]
  · intro k hk1 hk2
    have hks : k ≤ d.clients := by
      rw [hdd]
      exact hk2
    have hmem2 : clientNode uc.nodeConfig .flat d.name d.baseIP d.wanBaseIP k ∈
        topoNodes uc.nodeConfig .flat (sortDCs ds) := by
      unfold topoNodes
      rw [List.mem_flatMap]
      refine ⟨d, hd2, ?_⟩
      rw [dcNodes_eq]
      apply List.mem_append_right
      exact List.mem_map_of_mem _ (List.mem_range'_1.mpr ⟨hk1, by omega⟩)
    have hnm := buildTopo_nm_of_mem uc.nodeConfig .flat hv hmem2
    rw [clientNode_name] at hnm
    show ((buildTopo uc.nodeConfig NetworkShape.flat ds).nm (clientName dcn k)).bind
      Node.localAddress = _
    rw [← hdname, hnm]
    show (clientNode uc.nodeConfig .flat d.name d.baseIP d.wanBaseIP k).localAddress = _
    rw [clientNode_localAddress, hbase, hNi]

/-- C1 witness: the spec's literal example evaluated. -/
theorem c1_witness :
    ((exTopo.node "dc1-server1").bind Node.localAddress = some "10.0.1.11") ∧
    ((exTopo.node "dc1-client1").bind Node.localAddress = some "10.0.1.21") ∧
    ((exTopo.node "dc1-client2").bind Node.localAddress = some "10.0.1.22") ∧
    ((exTopo.node "dc2-server1").bind Node.localAddress = some "10.0.2.11") ∧
    ((exTopo.node "dc2-client1").bind Node.localAddress = some "10.0.2.21") ∧
    ((exTopo.node "dc2-client2").bind Node.localAddress = some "10.0.2.22") := by
  have hok : inferTopology exCfg = .ok exTopo := rfl
  have h1 := @c1_flat_addressing exCfg exTopo (by decide) hok rfl "dc1" ⟨1, 2⟩ 1
    (by decide) (by decide)
  have h2 := @c1_flat_addressing exCfg exTopo (by decide) hok rfl "dc2" ⟨1, 2⟩ 2
    (by decide) (by decide)
  exact ⟨h1.1 1 (by decide) (by decide), h1.2 1 (by decide) (by decide),
    h1.2 2 (by decide) (by decide), h2.1 1 (by decide) (by decide),
    h2.2 1 (by decide) (by decide), h2.2 2 (by decide) (by decide)⟩

/-! ## Claim C5: per-datacenter leader addresses -/

/-- C5: for every datacenter of a built topology, the leader scans
(`LeaderIP` local, `WANLeaderIP` public) resolve to the first server in
construction order — the node `<dc>-server1` — which is a server of that
datacenter, and its local address always exists.  The scans are pure
functions of the topology, so repeated queries agree. -/
theorem c5_leader {uc : UserConfigTopology} {t : Topology}
    (hn : (uc.datacenters.map Prod.fst).Nodup)
    (hok : inferTopology uc = .ok t) {d : Datacenter} (hd : d ∈ t.dcs) :
    ∃ n1 : Node,
      t.node (serverName d.name 1) = some n1 ∧
      n1.server = true ∧ n1.datacenter = d.name ∧
      t.leaderIP d.name = n1.localAddress ∧
      t.wanLeaderIP d.name = n1.publicAddress ∧
      n1.localAddress.isSome = true := by
  obtain ⟨shape, ds, hp, -, hb, ht⟩ := inferTopology_ok_elim hok
  subst ht
  have hv : ValidDCs ds := buildDCs_valid hn hb
  have hv2 : ValidDCs (sortDCs ds) := sortDCs_valid hv
  rw [buildTopo_dcs] at hd
  obtain ⟨-, hs1, -⟩ := hv2.1 d hd
  have hmem1 : serverNode shape d.name d.baseIP d.wanBaseIP 1 ∈
      topoNodes uc.nodeConfig shape (sortDCs ds) := by
    apply mem_topoNodes_of_server
    unfold topoServerNodes
    rw [List.mem_flatMap]
    refine ⟨d, hd, ?_⟩
    exact List.mem_map_of_mem _ (List.mem_range'_1.mpr ⟨le_refl 1, by omega⟩)
  have hnm := buildTopo_nm_of_mem uc.nodeConfig shape hv hmem1
  have hnmAll : ∀ n ∈ topoServerNodes shape (sortDCs ds),
      (buildTopo uc.nodeConfig shape ds).nm n.name = some n := by
    intro n hns
    exact buildTopo_nm_of_mem uc.nodeConfig shape hv (mem_topoNodes_of_server hns)
  have hfind := @find?_server_dc shape (sortDCs ds) d hv2.2 hd hs1
  refine ⟨serverNode shape d.name d.baseIP d.wanBaseIP 1, ?_, serverNode_server _ _ _ _ _,
    serverNode_datacenter _ _ _ _ _, ?_, ?_, ?_⟩
  · show (buildTopo uc.nodeConfig shape ds).nm (serverName d.name 1) = _
    rw [← serverNode_name shape d.name d.baseIP d.wanBaseIP 1]
    exact hnm
  · show leaderIPFrom _ d.name (buildTopo uc.nodeConfig shape ds).servers = _
    rw [buildTopo_servers, leaderIPFrom_spec hnmAll, hfind]
  · show wanLeaderIPFrom _ d.name (buildTopo uc.nodeConfig shape ds).servers = _
    rw [buildTopo_servers, wanLeaderIPFrom_spec hnmAll, hfind]
  · rw [serverNode_localAddress]
    rfl

/-- C5 witness: the dc2 leader of the example topology. -/
theorem c5_witness :
    ∃ n1 : Node,
      exTopo.node (serverName "dc2" 1) = some n1 ∧
      n1.server = true ∧ n1.datacenter = "dc2" ∧
      exTopo.leaderIP "dc2" = n1.localAddress ∧
      exTopo.wanLeaderIP "dc2" = n1.publicAddress ∧
      n1.localAddress.isSome = true :=
  @c5_leader exCfg exTopo (by decide) rfl
    { name := "dc2", primary := false, index := 2, servers := 1, clients := 2,
      baseIP := "10.0.2", wanBaseIP := "10.1.2" } (by decide)

/-! ## Claim C9: local addresses always resolve -/

theorem nm_some_mem {t0 : Topology} {ns : List Node} {k : String} {n : Node}
    (h : (ns.foldl addNode t0).nm k = some n) : n ∈ ns ∨ t0.nm k = some n := by
  rw [foldl_addNode_nm] at h
  cases hf : ns.reverse.find? (fun m => k == m.name) with
  | none =>
    rw [hf] at h
    right
    exact h
  | some m =>
    rw [hf] at h
    left
    have hm : m ∈ ns.reverse := List.mem_of_find?_eq_some hf
    have he : m = n := (Option.some.injEq _ _).mp h
    subst he
    exact List.mem_reverse.mp hm

theorem buildTopo_nm_some {ncs : List (String × UserNodeConfig)} {shape : NetworkShape}
    {ds : List Datacenter} {k : String} {n : Node}
    (h : (buildTopo ncs shape ds).nm k = some n) : n ∈ topoNodes ncs shape (sortDCs ds) := by
  rw [buildTopo_eq] at h
  rcases nm_some_mem h with h2 | h2
  · exact h2
  · exact Option.noConfusion h2

theorem topoNodes_mem_elim {ncs : List (String × UserNodeConfig)} {shape : NetworkShape}
    {ds : List Datacenter} {n : Node} (h : n ∈ topoNodes ncs shape ds) :
    ∃ d ∈ ds,
      (∃ k, k ∈ List.range' 1 d.servers ∧
        n = serverNode shape d.name d.baseIP d.wanBaseIP k) ∨
      (∃ k, k ∈ List.range' 1 d.clients ∧
        n = clientNode ncs shape d.name d.baseIP d.wanBaseIP k) := by
  unfold topoNodes at h
  rw [List.mem_flatMap] at h
  obtain ⟨d, hd, hn⟩ := h
  rw [dcNodes_eq] at hn
  rcases List.mem_append.mp hn with h2 | h2 <;> obtain ⟨k, hk, he⟩ := List.mem_map.mp h2
  · exact ⟨d, hd, Or.inl ⟨k, hk, he.symm⟩⟩
  · exact ⟨d, hd, Or.inr ⟨k, hk, he.symm⟩⟩

theorem clientNode_addresses_head (ncs : List (String × UserNodeConfig)) (shape : NetworkShape)
    (dc b w : String) (k : Nat) :
    ∃ tail : List Address, (clientNode ncs shape dc b w k).addresses =
      { network := shape.getNetworkName dc, ipAddress := b ++ "." ++ itoa (20 + k) } :: tail := by
  cases shape <;> simp only [clientNode] <;> split
  · exact ⟨[{ network := "wan", ipAddress := w ++ "." ++ itoa (20 + k) }], rfl⟩
  · exact ⟨[], rfl⟩
  · exact ⟨[], rfl⟩
  · exact ⟨[], rfl⟩

/-- C9: on a builder-produced topology every stored node has a resolvable
local address (the lookup's failure branch is unreachable), and the
address sits on the network the shape dictates: the node's own datacenter
under dual, the shared "lan" network under flat. -/
theorem c9_local_address {uc : UserConfigTopology} {t : Topology}
    (hn : (uc.datacenters.map Prod.fst).Nodup)
    (hok : inferTopology uc = .ok t)
    {name : String} {n : Node} (hnode : t.node name = some n) :
    ∃ a : Address, a ∈ n.addresses ∧ n.localAddress = some a.ipAddress ∧
      a.network = t.networkShape.getNetworkName n.datacenter := by
  obtain ⟨shape, ds, hp, -, hb, ht⟩ := inferTopology_ok_elim hok
  subst ht
  have hm : (buildTopo uc.nodeConfig shape ds).nm name = some n := hnode
  have hmem := buildTopo_nm_some hm
  rw [buildTopo_networkShape]
  obtain ⟨d, hd, hcase⟩ := topoNodes_mem_elim hmem
  rcases hcase with ⟨k, hk, he⟩ | ⟨k, hk, he⟩
  · subst he
    refine ⟨⟨shape.getNetworkName d.name, d.baseIP ++ "." ++ itoa (10 + k)⟩, ?_, ?_, ?_⟩
    · cases shape <;>
        simp [serverNode_addresses_flat, serverNode_addresses_dual,
          NetworkShape.getNetworkName]
    · rw [serverNode_localAddress]
    · rw [serverNode_datacenter]
  · subst he
    obtain ⟨tail, htail⟩ := clientNode_addresses_head uc.nodeConfig shape d.name d.baseIP
      d.wanBaseIP k
    refine ⟨⟨shape.getNetworkName d.name, d.baseIP ++ "." ++ itoa (20 + k)⟩, ?_, ?_, ?_⟩
    · rw [htail]
      exact List.mem_cons_self _ _
    · rw [clientNode_localAddress]
    · rw [clientNode_datacenter]

/-- C9 witness: a dual-shape server node resolves on its datacenter's
network. -/
theorem c9_witness :
    ∃ a : Address,
      a ∈ (⟨"dc2", "dc2-server1", true, [⟨"dc2", "10.0.2.11"⟩, ⟨"wan", "10.1.2.11"⟩],
        none, false, false, 0⟩ : Node).addresses ∧
      Node.localAddress (⟨"dc2", "dc2-server1", true,
        [⟨"dc2", "10.0.2.11"⟩, ⟨"wan", "10.1.2.11"⟩], none, false, false, 0⟩ : Node) =
        some a.ipAddress ∧
      a.network = dualTopo.networkShape.getNetworkName
        (Node.datacenter (⟨"dc2", "dc2-server1", true,
          [⟨"dc2", "10.0.2.11"⟩, ⟨"wan", "10.1.2.11"⟩], none, false, false, 0⟩ : Node)) :=
  @c9_local_address dualCfg dualTopo (by decide) rfl "dc2-server1"
    (⟨"dc2", "dc2-server1", true, [⟨"dc2", "10.0.2.11"⟩, ⟨"wan", "10.1.2.11"⟩],
      none, false, false, 0⟩ : Node) (by decide)

/-! ## Claim C6: client service naming and upstreams -/

theorem clientNode_meshGateway (ncs : List (String × UserNodeConfig)) (shape : NetworkShape)
    (dc b w : String) (k : Nat) :
    (clientNode ncs shape dc b w k).meshGateway =
      ((alookup ncs (clientName dc k)).getD {}).meshGateway := by
  cases shape <;> simp only [clientNode] <;> split
  next h => rw [h]
  next h => simp only [Bool.not_eq_true] at h; rw [h]
  next h => rw [h]
  next h => simp only [Bool.not_eq_true] at h; rw [h]

theorem clientNode_service_fields (ncs : List (String × UserNodeConfig)) (shape : NetworkShape)
    (dc b w : String) (k : Nat)
    (hcfg : ((alookup ncs (clientName dc k)).getD {}).meshGateway = false) :
    ∃ svc : Service, (clientNode ncs shape dc b w k).service = some svc ∧
      svc.name = (if k % 2 = 1 then "ping" else "pong") ∧
      svc.upstreamName =
        (if ((alookup ncs (clientName dc k)).getD {}).upstreamName ≠ ""
         then ((alookup ncs (clientName dc k)).getD {}).upstreamName
         else if k % 2 = 1 then "pong" else "ping") ∧
      svc.upstreamDatacenter = ((alookup ncs (clientName dc k)).getD {}).upstreamDatacenter := by
  cases shape <;>
  · simp only [clientNode]
    rw [if_neg (by simp [hcfg])]
    refine ⟨_, rfl, ?_, ?_, ?_⟩ <;>
    · by_cases hk : k % 2 = 1 <;>
        by_cases hu : ((alookup ncs (clientName dc k)).getD {}).upstreamName = "" <;>
        by_cases hd2 : ((alookup ncs (clientName dc k)).getD {}).upstreamDatacenter = "" <;>
        simp [hk, hu, hd2, beq_iff_eq]

/-- C6: for every non-mesh-gateway client node of a built topology, the
service name alternates ping/pong by 1-based client index parity (the
consulted override record has no service-name field, so the claim's
name-override exception never fires); the upstream name defaults to the
opposite service unless a non-empty upstream-name override is present;
the upstream datacenter equals the override value, the empty string when
no override is present. -/
theorem c6_service {uc : UserConfigTopology} {t : Topology}
    (hn : (uc.datacenters.map Prod.fst).Nodup)
    (hok : inferTopology uc = .ok t)
    {name : String} {n : Node} (hnode : t.node name = some n)
    (hclient : n.server = false) (hgw : n.meshGateway = false) :
    ∃ svc : Service, n.service = some svc ∧
      svc.name = (if (n.index + 1) % 2 = 1 then "ping" else "pong") ∧
      svc.upstreamName =
        (if ((alookup uc.nodeConfig n.name).getD {}).upstreamName ≠ ""
         then ((alookup uc.nodeConfig n.name).getD {}).upstreamName
         else if (n.index + 1) % 2 = 1 then "pong" else "ping") ∧
      svc.upstreamDatacenter = ((alookup uc.nodeConfig n.name).getD {}).upstreamDatacenter := by
  obtain ⟨shape, ds, hp, -, hb, ht⟩ := inferTopology_ok_elim hok
  subst ht
  have hm : (buildTopo uc.nodeConfig shape ds).nm name = some n := hnode
  have hmem := buildTopo_nm_some hm
  obtain ⟨d, hd, hcase⟩ := topoNodes_mem_elim hmem
  rcases hcase with ⟨k, hk, he⟩ | ⟨k, hk, he⟩
  · rw [he, serverNode_server] at hclient
    exact Bool.noConfusion hclient
  · have hk1 : 1 ≤ k := (List.mem_range'_1.mp hk).1
    have hidx : n.index = k - 1 := by rw [he, clientNode_index]
    have hkidx : n.index + 1 = k := by omega
    have hname : n.name = clientName d.name k := by rw [he, clientNode_name]
    have hcfg : ((alookup uc.nodeConfig (clientName d.name k)).getD {}).meshGateway = false := by
      rw [← clientNode_meshGateway uc.nodeConfig shape d.name d.baseIP d.wanBaseIP k, ← he]
      exact hgw
    rw [hkidx, hname, he]
    exact clientNode_service_fields uc.nodeConfig shape d.name d.baseIP d.wanBaseIP k hcfg

/-- C6 witness: a client with upstream overrides in the dual example. -/
theorem c6_witness :
    ∃ svc : Service,
      Node.service (⟨"dc1", "dc1-client1", false, [⟨"dc1", "10.0.1.21"⟩],
        some ⟨"ping", 8080, "widget", "dc2", 9090, "", []⟩, false, false, 0⟩ : Node) =
        some svc ∧
      svc.name = (if (0 + 1) % 2 = 1 then "ping" else "pong") ∧
      svc.upstreamName =
        (if ((alookup dualCfg.nodeConfig "dc1-client1").getD {}).upstreamName ≠ ""
         then ((alookup dualCfg.nodeConfig "dc1-client1").getD {}).upstreamName
         else if (0 + 1) % 2 = 1 then "pong" else "ping") ∧
      svc.upstreamDatacenter =
        ((alookup dualCfg.nodeConfig "dc1-client1").getD {}).upstreamDatacenter :=
  @c6_service dualCfg dualTopo (by decide) rfl "dc1-client1"
    (⟨"dc1", "dc1-client1", false, [⟨"dc1", "10.0.1.21"⟩],
      some ⟨"ping", 8080, "widget", "dc2", 9090, "", []⟩, false, false, 0⟩ : Node)
    (by decide) rfl rfl

/-! ## Claim C3: exact node inventory -/

theorem forall₂_dc_right_mem {l : List (String × DatacenterSpec)} {ds : List Datacenter}
    (h : List.Forall₂ (fun (p : String × DatacenterSpec) (d : Datacenter) =>
      parseDCName p.1 = some d.index ∧ d = mkDatacenter p.1 d.index p.2 ∧
      1 ≤ p.2.servers ∧ 1 ≤ p.2.clients) l ds) {d : Datacenter} (hd : d ∈ ds) :
    ∃ p ∈ l, parseDCName p.1 = some d.index ∧ d = mkDatacenter p.1 d.index p.2 := by
  induction h with
  | nil => cases hd
  | cons hpd _ ih =>
    rcases List.mem_cons.mp hd with he | he
    · subst he
      exact ⟨_, List.mem_cons_self _ _, hpd.1, hpd.2.1⟩
    · obtain ⟨p, hp, hres⟩ := ih he
      exact ⟨p, List.mem_cons_of_mem _ hp, hres⟩

theorem forall₂_dc_map_counts {l : List (String × DatacenterSpec)} {ds : List Datacenter}
    (h : List.Forall₂ (fun (p : String × DatacenterSpec) (d : Datacenter) =>
      parseDCName p.1 = some d.index ∧ d = mkDatacenter p.1 d.index p.2 ∧
      1 ≤ p.2.servers ∧ 1 ≤ p.2.clients) l ds) :
    ds.map (fun d => d.servers + d.clients) = l.map (fun p => p.2.servers + p.2.clients) := by
  induction h with
  | nil => rfl
  | cons hpd _ ih =>
    obtain ⟨-, hd, -, -⟩ := hpd
    simp only [List.map_cons, List.cons.injEq]
    exact ⟨by rw [hd]; rfl, ih⟩

theorem dcNodes_length (ncs : List (String × UserNodeConfig)) (shape : NetworkShape)
    (d : Datacenter) : (dcNodes ncs shape d).length = d.servers + d.clients := by
  rw [dcNodes_eq]
  simp [List.length_append, List.length_map, List.length_range']

theorem buildTopo_all_perm (ncs : List (String × UserNodeConfig)) (shape : NetworkShape)
    (ds : List Datacenter) :
    List.Perm (buildTopo ncs shape ds).all ((topoNodes ncs shape (sortDCs ds)).map Node.name) := by
  unfold Topology.all
  rw [buildTopo_servers, buildTopo_clients, ← topoNodes_filter_server, ← topoNodes_filter_client,
    ← List.map_append]
  exact List.Perm.map Node.name (List.filter_append_perm _ _)

/-- C3: the built topology holds exactly the nodes
`<dc>-server1..N, <dc>-client1..M` for each datacenter — the total count is
the sum of the per-datacenter counts and there are no gaps, duplicates or
extra nodes. -/
theorem c3_node_inventory {uc : UserConfigTopology} {t : Topology}
    (hn : (uc.datacenters.map Prod.fst).Nodup)
    (hok : inferTopology uc = .ok t) :
    t.all.length = (uc.datacenters.map (fun p => p.2.servers + p.2.clients)).sum ∧
    t.all.Nodup ∧
    (∀ name : String, name ∈ t.all ↔ ∃ p ∈ uc.datacenters,
      (∃ k, 1 ≤ k ∧ k ≤ p.2.servers ∧ name = serverName p.1 k) ∨
      (∃ k, 1 ≤ k ∧ k ≤ p.2.clients ∧ name = clientName p.1 k)) := by
  obtain ⟨shape, ds, hp, -, hb, ht⟩ := inferTopology_ok_elim hok
  subst ht
  have hv : ValidDCs ds := buildDCs_valid hn hb
  have hf2 := buildDCs_ok hb
  have hperm := buildTopo_all_perm uc.nodeConfig shape ds
  refine ⟨?_, ?_, ?_⟩
  · rw [hperm.length_eq, List.length_map]
    unfold topoNodes
    rw [List.length_flatMap]
    have hmap : (sortDCs ds).map (List.length ∘ dcNodes uc.nodeConfig shape) =
        (sortDCs ds).map (fun d => d.servers + d.clients) := by
      apply List.map_congr_left
      intro d _
      exact dcNodes_length uc.nodeConfig shape d
    rw [hmap]
    rw [List.Perm.sum_eq (List.Perm.map _ (sortDCs_perm ds))]
    rw [forall₂_dc_map_counts hf2]
  · exact hperm.nodup_iff.mpr (buildTopo_names_nodup uc.nodeConfig shape hv)
  · intro name
    rw [hperm.mem_iff, List.mem_map]
    constructor
    · rintro ⟨n, hmem, hne⟩
      obtain ⟨d, hd, hcase⟩ := topoNodes_mem_elim hmem
      have hd2 : d ∈ ds := (sortDCs_perm ds).mem_iff.mp hd
      obtain ⟨p, hpl, -, hdd⟩ := forall₂_dc_right_mem hf2 hd2
      refine ⟨p, hpl, ?_⟩
      rcases hcase with ⟨k, hk, he⟩ | ⟨k, hk, he⟩
      · left
        obtain ⟨hk1, hk2⟩ := List.mem_range'_1.mp hk
        refine ⟨k, hk1, ?_, ?_⟩
        · have : d.servers = p.2.servers := by rw [hdd]; rfl
          omega
        · rw [← hne, he, serverNode_name]
          have : d.name = p.1 := by rw [hdd]; rfl
          rw [this]
      · right
        obtain ⟨hk1, hk2⟩ := List.mem_range'_1.mp hk
        refine ⟨k, hk1, ?_, ?_⟩
        · have : d.clients = p.2.clients := by rw [hdd]; rfl
          omega
        · rw [← hne, he, clientNode_name]
          have : d.name = p.1 := by rw [hdd]; rfl
          rw [this]
    · rintro ⟨p, hpl, hcase⟩
      obtain ⟨d, hd, -, hdd⟩ := forall₂_dc_left_mem hf2 hpl
      have hd2 : d ∈ sortDCs ds := (sortDCs_perm ds).mem_iff.mpr hd
      have hdn : d.name = p.1 := by rw [hdd]; rfl
      rcases hcase with ⟨k, hk1, hk2, he⟩ | ⟨k, hk1, hk2, he⟩
      · refine ⟨serverNode shape d.name d.baseIP d.wanBaseIP k, ?_, ?_⟩
        · unfold topoNodes
          rw [List.mem_flatMap]
          refine ⟨d, hd2, ?_⟩
          rw [dcNodes_eq]
          apply List.mem_append_left
          apply List.mem_map_of_mem
          apply List.mem_range'_1.mpr
          have : d.servers = p.2.servers := by rw [hdd]; rfl
          omega
        · rw [serverNode_name, hdn, he]
      · refine ⟨clientNode uc.nodeConfig shape d.name d.baseIP d.wanBaseIP k, ?_, ?_⟩
        · unfold topoNodes
          rw [List.mem_flatMap]
          refine ⟨d, hd2, ?_⟩
          rw [dcNodes_eq]
          apply List.mem_append_right
          apply List.mem_map_of_mem
          apply List.mem_range'_1.mpr
          have : d.clients = p.2.clients := by rw [hdd]; rfl
          omega
        · rw [clientNode_name, hdn, he]

/-- C3 witness: the example topology's inventory. -/
theorem c3_witness :
    exTopo.all.length = (exCfg.datacenters.map (fun p => p.2.servers + p.2.clients)).sum ∧
    exTopo.all.Nodup ∧
    (∀ name : String, name ∈ exTopo.all ↔ ∃ p ∈ exCfg.datacenters,
      (∃ k, 1 ≤ k ∧ k ≤ p.2.servers ∧ name = serverName p.1 k) ∨
      (∃ k, 1 ≤ k ∧ k ≤ p.2.clients ∧ name = clientName p.1 k)) :=
  @c3_node_inventory exCfg exTopo (by decide) rfl

/-! ## Claim C4: deterministic iteration order -/

theorem buildDCs_eq_map {l : List (String × DatacenterSpec)} {ds : List Datacenter}
    (h : buildDCs l = .ok ds) : ds = l.map dcOf := by
  induction l generalizing ds with
  | nil =>
    simp only [buildDCs] at h
    cases h
    rfl
  | cons p rest ih =>
    obtain ⟨dc, v⟩ := p
    simp only [buildDCs] at h
    split at h
    next => exact Except.noConfusion h
    next =>
      split at h
      next => exact Except.noConfusion h
      next =>
        cases hp : parseDCName dc with
        | none =>
          rw [hp] at h
          exact Except.noConfusion h
        | some i =>
          rw [hp] at h
          cases hb : buildDCs rest with
          | error e =>
            rw [hb] at h
            exact Except.noConfusion h
          | ok ds2 =>
            rw [hb] at h
            cases h
            rw [List.map_cons, ← ih hb]
            congr 1
            simp [dcOf, hp]

theorem sortDCs_eq_of_perm {ds1 ds2 : List Datacenter}
    (hperm : List.Perm ds1 ds2) (hnd : (ds1.map Datacenter.name).Nodup) :
    sortDCs ds1 = sortDCs ds2 := by
  have hp2 : List.Perm (sortDCs ds1) (sortDCs ds2) :=
    ((sortDCs_perm ds1).trans hperm).trans (sortDCs_perm ds2).symm
  have hnd1 : ((sortDCs ds1).map Datacenter.name).Nodup :=
    (((sortDCs_perm ds1).map Datacenter.name).nodup_iff).mpr hnd
  have hnd2 : ((sortDCs ds2).map Datacenter.name).Nodup :=
    ((hp2.map Datacenter.name).nodup_iff).mp hnd1
  have hstrict : ∀ l : List Datacenter,
      List.Sorted (fun a b : Datacenter => strLe a.name b.name = true) l →
      (l.map Datacenter.name).Nodup →
      List.Pairwise (fun a b : Datacenter =>
        strLe a.name b.name = true ∧ a.name ≠ b.name) l := by
    intro l hs hnd3
    exact List.Pairwise.and hs (List.pairwise_map.mp hnd3)
  haveI : IsAntisymm Datacenter
      (fun a b : Datacenter => strLe a.name b.name = true ∧ a.name ≠ b.name) :=
    ⟨fun a b hab hba => absurd (strLe_antisymm hab.1 hba.1) hab.2⟩
  exact List.eq_of_perm_of_sorted hp2
    (hstrict _ (sortDCs_sorted ds1) hnd1) (hstrict _ (sortDCs_sorted ds2) hnd2)

theorem topoServerNodes_names (shape : NetworkShape) (ds : List Datacenter) :
    (topoServerNodes shape ds).map Node.name =
      ds.flatMap (fun d => (List.range' 1 d.servers).map (serverName d.name)) := by
  unfold topoServerNodes
  rw [List.map_flatMap]
  induction ds with
  | nil => rfl
  | cons d ds ih =>
    rw [List.flatMap_cons, List.flatMap_cons, ih]
    congr 1
    rw [List.map_map]
    apply List.map_congr_left
    intro k _
    exact serverNode_name shape d.name d.baseIP d.wanBaseIP k

theorem topoClientNodes_names (ncs : List (String × UserNodeConfig)) (shape : NetworkShape)
    (ds : List Datacenter) :
    (topoClientNodes ncs shape ds).map Node.name =
      ds.flatMap (fun d => (List.range' 1 d.clients).map (clientName d.name)) := by
  unfold topoClientNodes
  rw [List.map_flatMap]
  induction ds with
  | nil => rfl
  | cons d ds ih =>
    rw [List.flatMap_cons, List.flatMap_cons, ih]
    congr 1
    rw [List.map_map]
    apply List.map_congr_left
    intro k _
    exact clientNode_name ncs shape d.name d.baseIP d.wanBaseIP k

/-- C4: the full iteration order lists every server node first — grouped
by name-sorted datacenter, index-increasing within a datacenter — then
every client node likewise, and the order is a function of the input spec
alone: rebuilding from any permutation of the datacenter map (same shape
and overrides) yields the identical topology. -/
theorem c4_iteration_order {uc : UserConfigTopology} {t : Topology}
    (hn : (uc.datacenters.map Prod.fst).Nodup)
    (hok : inferTopology uc = .ok t) :
    t.all = (t.dcs.flatMap (fun d => (List.range' 1 d.servers).map (serverName d.name))) ++
      (t.dcs.flatMap (fun d => (List.range' 1 d.clients).map (clientName d.name))) ∧
    List.Sorted (fun a b => strLe a b = true) (t.dcs.map Datacenter.name) ∧
    (∀ (uc2 : UserConfigTopology) (t2 : Topology),
      uc2.networkShape = uc.networkShape → uc2.nodeConfig = uc.nodeConfig →
      List.Perm uc2.datacenters uc.datacenters →
      inferTopology uc2 = .ok t2 → t2 = t) := by
  obtain ⟨shape, ds, hp, -, hb, ht⟩ := inferTopology_ok_elim hok
  subst ht
  refine ⟨?_, ?_, ?_⟩
  · show (buildTopo uc.nodeConfig shape ds).servers ++ (buildTopo uc.nodeConfig shape ds).clients = _
    rw [buildTopo_servers, buildTopo_clients, buildTopo_dcs, topoServerNodes_names,
      topoClientNodes_names]
  · rw [buildTopo_dcs]
    exact List.pairwise_map.mpr (sortDCs_sorted ds)
  · intro uc2 t2 hsh hnc hperm hok2
    obtain ⟨shape2, ds2, hp2, -, hb2, ht2⟩ := inferTopology_ok_elim hok2
    subst ht2
    have hshape : shape2 = shape := by
      rw [hsh, hp] at hp2
      exact ((Option.some.injEq _ _).mp hp2).symm
    have hd1 : ds = uc.datacenters.map dcOf := buildDCs_eq_map hb
    have hd2 : ds2 = uc2.datacenters.map dcOf := buildDCs_eq_map hb2
    have hdperm : List.Perm ds2 ds := by
      rw [hd1, hd2]
      exact hperm.map dcOf
    have hnd : (ds2.map Datacenter.name).Nodup := by
      rw [buildDCs_names hb2]
      exact (hperm.map Prod.fst).nodup_iff.mpr hn
    have hsorted : sortDCs ds2 = sortDCs ds := sortDCs_eq_of_perm hdperm hnd
    rw [hshape, hnc]
    unfold buildTopo
    rw [hsorted]

/-- C4 witness: the example spec built from both map enumeration orders. -/
theorem c4_witness :
    (exTopo.all =
      (exTopo.dcs.flatMap (fun d => (List.range' 1 d.servers).map (serverName d.name))) ++
      (exTopo.dcs.flatMap (fun d => (List.range' 1 d.clients).map (clientName d.name)))) ∧
    List.Sorted (fun a b => strLe a b = true) (exTopo.dcs.map Datacenter.name) ∧
    topoOf permCfg = exTopo := by
  have h := @c4_iteration_order exCfg exTopo (by decide) rfl
  exact ⟨h.1, h.2.1, h.2.2 permCfg (topoOf permCfg) rfl rfl (by decide) rfl⟩

/-! ## Claim C7: Prometheus job aggregation -/

theorem sortStrings_sorted (l : List String) :
    List.Sorted (fun a b : String => strLe a b = true) (sortStrings l) := by
  haveI : IsTotal String (fun a b : String => strLe a b = true) := ⟨strLe_total⟩
  haveI : IsTrans String (fun a b : String => strLe a b = true) := ⟨fun _ _ _ => strLe_trans⟩
  exact List.sorted_insertionSort _ l

theorem sortKVs_sorted (l : List (String × String)) :
    List.Sorted (fun a b : String × String => strLe a.1 b.1 = true) (sortKVs l) := by
  haveI : IsTotal (String × String) (fun a b : String × String => strLe a.1 b.1 = true) :=
    ⟨fun a b => strLe_total a.1 b.1⟩
  haveI : IsTrans (String × String) (fun a b : String × String => strLe a.1 b.1 = true) :=
    ⟨fun _ _ _ => strLe_trans⟩
  exact List.sorted_insertionSort _ l

theorem addJob_names_of_update {jobs : List PromJob} {j : PromJob}
    (h : jobs.any (fun p => p.name == j.name) = true) :
    (addJob jobs j).map PromJob.name = jobs.map PromJob.name := by
  unfold addJob
  rw [if_pos h, List.map_map]
  apply List.map_congr_left
  intro p _
  by_cases he : p.name = j.name
  · simp [he]
  · simp [he]

theorem addJob_good {jobs : List PromJob} {j : PromJob} (h : GoodJobs jobs) :
    GoodJobs (addJob jobs j) := by
  by_cases hany : jobs.any (fun p => p.name == j.name) = true
  · constructor
    · rw [addJob_names_of_update hany]
      exact h.1
    · intro q hq
      unfold addJob at hq
      rw [if_pos hany] at hq
      obtain ⟨p, hp, hfq⟩ := List.mem_map.mp hq
      by_cases he : p.name == j.name
      · rw [if_pos he] at hfq
        rw [← hfq]
        exact ⟨sortStrings_sorted _, (h.2 p hp).2⟩
      · rw [if_neg he] at hfq
        rw [← hfq]
        exact h.2 p hp
  · constructor
    · unfold addJob
      rw [if_neg hany, List.map_append]
      apply List.Nodup.append h.1 (List.nodup_singleton _)
      intro a ha hb
      simp only [List.map_cons, List.map_nil, List.mem_singleton] at hb
      obtain ⟨p, hp, hpa⟩ := List.mem_map.mp ha
      rw [List.any_eq_true] at hany
      exact hany ⟨p, hp, by simp [hpa, hb]⟩
    · intro q hq
      unfold addJob at hq
      rw [if_neg hany] at hq
      rcases List.mem_append.mp hq with h2 | h2
      · exact h.2 q h2
      · simp only [List.mem_singleton] at h2
        rw [h2]
        exact ⟨sortStrings_sorted _, sortKVs_sorted _⟩

theorem foldl_addJob_good (l : List PromJob) {jobs : List PromJob} (h : GoodJobs jobs) :
    GoodJobs (l.foldl addJob jobs) := by
  induction l generalizing jobs with
  | nil => exact h
  | cons j l ih =>
    rw [List.foldl_cons]
    exact ih (addJob_good h)

theorem promJobsRaw_good (t : Topology) (token : String) : GoodJobs (promJobsRaw t token) :=
  foldl_addJob_good _ ⟨List.nodup_nil, by simp⟩

theorem promJobs_good (t : Topology) (token : String) : GoodJobs (promJobs t token) := by
  have hperm : List.Perm (promJobs t token) (promJobsRaw t token) :=
    List.perm_insertionSort _ _
  obtain ⟨h1, h2⟩ := promJobsRaw_good t token
  constructor
  · exact ((hperm.map PromJob.name).nodup_iff).mpr h1
  · intro j hj
    exact h2 j (hperm.mem_iff.mp hj)

/-- C7: the `add` closure appends targets to an existing job instead of
creating a duplicate entry (two dc1 servers yield a single
consul-servers-dc1 job carrying both targets, sorted); the rendered job
list is name-sorted with unique names, each job's targets sorted and its
labels sorted by key. -/
theorem c7_prometheus (token : String) :
    (∀ (jobs : List PromJob) (j p : PromJob), p ∈ jobs → p.name = j.name →
      ((addJob jobs j).map PromJob.name = jobs.map PromJob.name) ∧
      (∃ q ∈ addJob jobs j, q.name = p.name ∧
        q.targets = sortStrings (p.targets ++ j.targets))) ∧
    (∀ t : Topology,
      List.Sorted (fun a b : PromJob => strLe a.name b.name = true) (promJobs t token) ∧
      ((promJobs t token).map PromJob.name).Nodup ∧
      ∀ j ∈ promJobs t token,
        List.Sorted (fun a b : String => strLe a b = true) j.targets ∧
        List.Sorted (fun a b : String × String => strLe a.1 b.1 = true) j.labels) ∧
    ((promJobs promTopo token).map PromJob.name =
      ["consul-clients-dc1", "consul-servers-dc1", "ping-proxy"] ∧
      (promJobs promTopo token).filterMap
        (fun j => if j.name == "consul-servers-dc1" then some j.targets else none) =
      [["10.0.1.11:8500", "10.0.1.12:8500"]]) := by
  refine ⟨?_, ?_, ?_, ?_⟩
  · intro jobs j p hp hname
    have hany : jobs.any (fun q => q.name == j.name) = true :=
      List.any_eq_true.mpr ⟨p, hp, by simp [hname]⟩
    refine ⟨addJob_names_of_update hany, ?_⟩
    refine ⟨{ p with targets := sortStrings (p.targets ++ j.targets) }, ?_, rfl, rfl⟩
    unfold addJob
    rw [if_pos hany]
    have : (fun q : PromJob =>
        if q.name == j.name then { q with targets := sortStrings (q.targets ++ j.targets) }
        else q) p = { p with targets := sortStrings (p.targets ++ j.targets) } := by
      simp [hname]
    rw [← this]
    exact List.mem_map_of_mem _ hp
  · intro t
    haveI : IsTotal PromJob (fun a b : PromJob => strLe a.name b.name = true) :=
      ⟨fun a b => strLe_total a.name b.name⟩
    haveI : IsTrans PromJob (fun a b : PromJob => strLe a.name b.name = true) :=
      ⟨fun _ _ _ => strLe_trans⟩
    obtain ⟨h1, h2⟩ := promJobs_good t token
    exact ⟨List.sorted_insertionSort _ _, h1, h2⟩
  · rfl
  · rfl

/-- C7 witness: the aggregation applied at a concrete job list. -/
theorem c7_witness :
    ((addJob [⟨"j", "/m", [], ["b"], []⟩] ⟨"j", "/m", [], ["a"], []⟩).map PromJob.name =
      [⟨"j", "/m", [], ["b"], []⟩].map PromJob.name) ∧
    (∃ q ∈ addJob [⟨"j", "/m", [], ["b"], []⟩] ⟨"j", "/m", [], ["a"], []⟩,
      q.name = PromJob.name ⟨"j", "/m", [], ["b"], []⟩ ∧
      q.targets = sortStrings (PromJob.targets ⟨"j", "/m", [], ["b"], []⟩ ++
        PromJob.targets ⟨"j", "/m", [], ["a"], []⟩)) :=
  (c7_prometheus "tok").1 [⟨"j", "/m", [], ["b"], []⟩] ⟨"j", "/m", [], ["a"], []⟩
    ⟨"j", "/m", [], ["b"], []⟩ (by decide) rfl

/-! ## Claim C8: dependency edges and acyclicity -/

theorem acyclic_of_rank {es : List (String × String)} (f : String → Nat)
    (h : ∀ e ∈ es, f e.2 < f e.1) : Acyclic es := by
  have hpath : ∀ a b : String, DepPath es a b → f b < f a := by
    intro a b hp
    induction hp with
    | single he => exact h _ he
    | cons he _ ih => exact lt_trans ih (h _ he)
  intro a hp
  exact lt_irrefl _ (hpath a a hp)

theorem nodeEdges_eq (n : Node) :
    nodeEdges n = (n.name, n.name ++ "-pod") :: claimedNodeEdges n := by
  cases hs : n.server <;> simp [nodeEdges, claimedNodeEdges, hs]

theorem claimedNodeEdges_mem {n : Node} {e : String × String} :
    e ∈ claimedNodeEdges n ↔
      (n.server = false ∧ e = (n.name, n.datacenter ++ "-server1")) ∨
      (n.meshGateway = true ∧ e = (n.name ++ "-mesh-gateway", n.name)) ∨
      (∃ svc, n.service = some svc ∧
        (e = (n.name ++ "-" ++ svc.name, n.name) ∨
         e = (n.name ++ "-" ++ svc.name ++ "-sidecar", n.name ++ "-" ++ svc.name))) := by
  unfold claimedNodeEdges
  cases hs : n.server <;> cases hg : n.meshGateway <;> cases hsvc : n.service <;>
    simp [hs, hg, hsvc, List.mem_append, or_assoc]

theorem composeEdges_mem {t : Topology} {e : String × String} :
    e ∈ composeEdges t ↔ ∃ n ∈ t.nodesInOrder, e ∈ nodeEdges n := by
  unfold composeEdges
  exact List.mem_flatMap

theorem claimedEdges_mem {t : Topology} {e : String × String} :
    e ∈ claimedEdges t ↔ ∃ n ∈ t.nodesInOrder, e ∈ claimedNodeEdges n := by
  unfold claimedEdges
  exact List.mem_flatMap

theorem lastChar_append (a b : String) (hb : b.data ≠ []) :
    lastChar (a ++ b) = lastChar b := by
  unfold lastChar
  rw [append_data]
  exact List.getLast?_append_of_ne_nil _ hb

theorem lastChar_serverName (d : String) (k : Nat) :
    lastChar (serverName d k) = some (digitChar (k % 10)) := by
  unfold lastChar
  rw [serverName_data]
  rw [show ('-' :: ('s' :: 'e' :: 'r' :: 'v' :: 'e' :: 'r' :: itoaD k)) =
    ['-', 's', 'e', 'r', 'v', 'e', 'r'] ++ itoaD k from rfl]
  rw [← List.append_assoc]
  rw [List.getLast?_append_of_ne_nil _ (itoaD_ne_nil k)]
  exact itoaD_getLast k

theorem lastChar_clientName (d : String) (k : Nat) :
    lastChar (clientName d k) = some (digitChar (k % 10)) := by
  unfold lastChar
  rw [clientName_data]
  rw [show ('-' :: ('c' :: 'l' :: 'i' :: 'e' :: 'n' :: 't' :: itoaD k)) =
    ['-', 'c', 'l', 'i', 'e', 'n', 't'] ++ itoaD k from rfl]
  rw [← List.append_assoc]
  rw [List.getLast?_append_of_ne_nil _ (itoaD_ne_nil k)]
  exact itoaD_getLast k

theorem digitChar_ne_of_not_digit {m : Nat} (hm : m < 10) {c : Char}
    (hc : c.isDigit = false) : digitChar m ≠ c := by
  intro he
  have := digitChar_isDigit hm
  rw [he, hc] at this
  exact Bool.noConfusion this

theorem clientNode_service_gateway (ncs : List (String × UserNodeConfig)) (shape : NetworkShape)
    (dc b w : String) (k : Nat)
    (hcfg : ((alookup ncs (clientName dc k)).getD {}).meshGateway = true) :
    (clientNode ncs shape dc b w k).service = none := by
  cases shape <;> simp only [clientNode] <;> rw [if_pos hcfg] <;> rfl

theorem clientNode_service_name (ncs : List (String × UserNodeConfig)) (shape : NetworkShape)
    (dc b w : String) (k : Nat) {svc : Service}
    (h : (clientNode ncs shape dc b w k).service = some svc) :
    svc.name = "ping" ∨ svc.name = "pong" := by
  cases hcfg : ((alookup ncs (clientName dc k)).getD {}).meshGateway
  · obtain ⟨svc2, h2, hname, -, -⟩ :=
      clientNode_service_fields ncs shape dc b w k hcfg
    rw [h2] at h
    have he : svc2 = svc := (Option.some.injEq _ _).mp h
    subst he
    by_cases hk : k % 2 = 1
    · left
      rw [hname, if_pos hk]
    · right
      rw [hname, if_neg hk]
  · rw [clientNode_service_gateway ncs shape dc b w k hcfg] at h
    exact Option.noConfusion h

theorem append_server1 (d : String) : d ++ "-server1" = serverName d 1 := by
  unfold serverName
  rw [String.append_assoc]
  rfl

theorem lastChar_ne_not_mem {x : String} {L : List String} {c : Char}
    (hx : lastChar x = some c)
    (hL : ∀ y ∈ L, ∃ c2, lastChar y = some c2 ∧ c2 ≠ c) : x ∉ L := by
  intro hmem
  obtain ⟨c2, hc2, hne2⟩ := hL x hmem
  rw [hx] at hc2
  exact hne2 ((Option.some.injEq _ _).mp hc2.symm)

/-- C8 (amended): the manifest's start-after edges are exactly the edges
the claim lists (application on its agent, sidecar on its application,
mesh gateway on its agent, client agent on the server-1 agent of its own
datacenter, server agents on no agent) plus one edge from every agent to
its own pause-pod container; the client agents' server dependency names a
real server agent of the same datacenter; and the edge graph is acyclic. -/
theorem c8_dependency_edges {uc : UserConfigTopology} {t : Topology}
    (hn : (uc.datacenters.map Prod.fst).Nodup)
    (hok : inferTopology uc = .ok t) :
    (∀ e : String × String, e ∈ composeEdges t ↔
      (e ∈ claimedEdges t ∨ ∃ n ∈ t.nodesInOrder, e = (n.name, n.name ++ "-pod"))) ∧
    (∀ n ∈ t.nodesInOrder, n.server = false →
      (n.name, n.datacenter ++ "-server1") ∈ composeEdges t ∧
      n.datacenter ++ "-server1" ∈ t.servers) ∧
    Acyclic (composeEdges t) := by
  obtain ⟨shape, ds, hp, -, hb, ht⟩ := inferTopology_ok_elim hok
  subst ht
  have hv : ValidDCs ds := buildDCs_valid hn hb
  have hv2 : ValidDCs (sortDCs ds) := sortDCs_valid hv
  have hnio := buildTopo_nodesInOrder uc.nodeConfig shape hv
  have hservers := buildTopo_servers uc.nodeConfig shape ds
  have hclients := buildTopo_clients uc.nodeConfig shape ds
  have hallsplit : (buildTopo uc.nodeConfig shape ds).all =
      (buildTopo uc.nodeConfig shape ds).servers ++
      (buildTopo uc.nodeConfig shape ds).clients := rfl
  have hallmap : (buildTopo uc.nodeConfig shape ds).all =
      (buildTopo uc.nodeConfig shape ds).nodesInOrder.map Node.name := by
    rw [hnio, List.map_append, hallsplit, hservers, hclients]
  have hmemTopo : ∀ n ∈ (buildTopo uc.nodeConfig shape ds).nodesInOrder,
      n ∈ topoNodes uc.nodeConfig shape (sortDCs ds) := by
    intro n hn2
    rw [hnio] at hn2
    rcases List.mem_append.mp hn2 with h | h
    · exact mem_topoNodes_of_server h
    · exact mem_topoNodes_of_client h
  have hsplit : ∀ n ∈ (buildTopo uc.nodeConfig shape ds).nodesInOrder,
      (n.server = true ∧ n.name ∈ (buildTopo uc.nodeConfig shape ds).servers) ∨
      (n.server = false ∧ n.name ∈ (buildTopo uc.nodeConfig shape ds).clients) := by
    intro n hn2
    rw [hnio] at hn2
    rcases List.mem_append.mp hn2 with h | h
    · left
      refine ⟨?_, by rw [hservers]; exact List.mem_map_of_mem _ h⟩
      unfold topoServerNodes at h
      rw [List.mem_flatMap] at h
      obtain ⟨d, -, h3⟩ := h
      obtain ⟨k, -, hk⟩ := List.mem_map.mp h3
      rw [← hk]
      exact serverNode_server _ _ _ _ _
    · right
      refine ⟨?_, by rw [hclients]; exact List.mem_map_of_mem _ h⟩
      unfold topoClientNodes at h
      rw [List.mem_flatMap] at h
      obtain ⟨d, -, h3⟩ := h
      obtain ⟨k, -, hk⟩ := List.mem_map.mp h3
      rw [← hk]
      exact clientNode_server _ _ _ _ _ _
  have hdigitS : ∀ x ∈ (buildTopo uc.nodeConfig shape ds).servers,
      ∃ m, m < 10 ∧ lastChar x = some (digitChar m) := by
    intro x hx
    rw [hservers] at hx
    obtain ⟨n, hn2, hx2⟩ := List.mem_map.mp hx
    unfold topoServerNodes at hn2
    rw [List.mem_flatMap] at hn2
    obtain ⟨d, -, h3⟩ := hn2
    obtain ⟨k, -, hk⟩ := List.mem_map.mp h3
    refine ⟨k % 10, Nat.mod_lt _ (by omega), ?_⟩
    rw [← hx2, ← hk, serverNode_name]
    exact lastChar_serverName d.name k
  have hdigitC : ∀ x ∈ (buildTopo uc.nodeConfig shape ds).clients,
      ∃ m, m < 10 ∧ lastChar x = some (digitChar m) := by
    intro x hx
    rw [hclients] at hx
    obtain ⟨n, hn2, hx2⟩ := List.mem_map.mp hx
    unfold topoClientNodes at hn2
    rw [List.mem_flatMap] at hn2
    obtain ⟨d, -, h3⟩ := hn2
    obtain ⟨k, -, hk⟩ := List.mem_map.mp h3
    refine ⟨k % 10, Nat.mod_lt _ (by omega), ?_⟩
    rw [← hx2, ← hk, clientNode_name]
    exact lastChar_clientName d.name k
  have hdigitAll : ∀ x ∈ (buildTopo uc.nodeConfig shape ds).all,
      ∃ m, m < 10 ∧ lastChar x = some (digitChar m) := by
    intro x hx
    rw [hallsplit] at hx
    rcases List.mem_append.mp hx with h | h
    · exact hdigitS x h
    · exact hdigitC x h
  have hdisj : List.Disjoint (buildTopo uc.nodeConfig shape ds).servers
      (buildTopo uc.nodeConfig shape ds).clients := by
    have hnodup : (buildTopo uc.nodeConfig shape ds).all.Nodup :=
      (buildTopo_all_perm uc.nodeConfig shape ds).nodup_iff.mpr
        (buildTopo_names_nodup uc.nodeConfig shape hv)
    rw [hallsplit] at hnodup
    exact (List.nodup_append.mp hnodup).2.2
  have hdc : ∀ n ∈ (buildTopo uc.nodeConfig shape ds).nodesInOrder,
      serverName n.datacenter 1 ∈ (buildTopo uc.nodeConfig shape ds).servers := by
    intro n hn2
    obtain ⟨d, hd, hcase⟩ := topoNodes_mem_elim (hmemTopo n hn2)
    have hdcn : n.datacenter = d.name := by
      rcases hcase with ⟨k, -, he⟩ | ⟨k, -, he⟩ <;> rw [he]
      · exact serverNode_datacenter _ _ _ _ _
      · exact clientNode_datacenter _ _ _ _ _ _
    obtain ⟨-, hs1, -⟩ := hv2.1 d hd
    rw [hdcn, hservers, ← serverNode_name shape d.name d.baseIP d.wanBaseIP 1]
    apply List.mem_map_of_mem
    unfold topoServerNodes
    rw [List.mem_flatMap]
    exact ⟨d, hd, List.mem_map_of_mem _ (List.mem_range'_1.mpr ⟨le_refl 1, by omega⟩)⟩
  have hsvc : ∀ n ∈ (buildTopo uc.nodeConfig shape ds).nodesInOrder, ∀ svc : Service,
      n.service = some svc → svc.name = "ping" ∨ svc.name = "pong" := by
    intro n hn2 svc hsome
    obtain ⟨d, hd, hcase⟩ := topoNodes_mem_elim (hmemTopo n hn2)
    rcases hcase with ⟨k, -, he⟩ | ⟨k, -, he⟩
    · rw [he, serverNode_service] at hsome
      exact Option.noConfusion hsome
    · rw [he] at hsome
      exact clientNode_service_name _ _ _ _ _ _ hsome
  have hpodlast : ∀ x ∈ podNames (buildTopo uc.nodeConfig shape ds),
      lastChar x = some 'd' := by
    intro x hx
    unfold podNames at hx
    obtain ⟨y, -, hy⟩ := List.mem_map.mp hx
    rw [← hy]
    rw [lastChar_append y "-pod" (by decide)]
    rfl
  have happlast : ∀ x ∈ appNames (buildTopo uc.nodeConfig shape ds),
      lastChar x = some 'g' := by
    intro x hx
    unfold appNames at hx
    rw [List.mem_filterMap] at hx
    obtain ⟨m, hm, hmx⟩ := hx
    cases hsm : m.service with
    | none =>
      rw [hsm] at hmx
      exact Option.noConfusion hmx
    | some svc =>
      rw [hsm] at hmx
      have hx2 : m.name ++ "-" ++ svc.name = x := (Option.some.injEq _ _).mp hmx
      rw [← hx2]
      rcases hsvc m hm svc hsm with hname | hname <;>
        rw [lastChar_append _ svc.name (by rw [hname]; decide), hname] <;> rfl
  have hnotpod : ∀ x ∈ (buildTopo uc.nodeConfig shape ds).all,
      x ∉ podNames (buildTopo uc.nodeConfig shape ds) := by
    intro x hx
    obtain ⟨m, hm, hlast⟩ := hdigitAll x hx
    apply lastChar_ne_not_mem hlast
    intro y hy
    exact ⟨'d', hpodlast y hy,
      fun he => digitChar_ne_of_not_digit hm (by decide) he.symm⟩
  have hrank_le2 : ∀ n ∈ (buildTopo uc.nodeConfig shape ds).nodesInOrder,
      rankOf (buildTopo uc.nodeConfig shape ds) n.name ≤ 2 ∧
      1 ≤ rankOf (buildTopo uc.nodeConfig shape ds) n.name := by
    intro n hn2
    have hnall : n.name ∈ (buildTopo uc.nodeConfig shape ds).all := by
      rw [hallmap]
      exact List.mem_map_of_mem _ hn2
    have hnp := hnotpod n.name hnall
    unfold rankOf
    rw [if_neg hnp]
    rcases hsplit n hn2 with ⟨-, hmem⟩ | ⟨-, hmem⟩
    · rw [if_pos hmem]
      omega
    · rw [if_neg (fun h2 => hdisj h2 hmem), if_pos hmem]
      omega
  refine ⟨?_, ?_, ?_⟩
  · intro e
    rw [composeEdges_mem, claimedEdges_mem]
    constructor
    · rintro ⟨n, hn2, he⟩
      rw [nodeEdges_eq, List.mem_cons] at he
      rcases he with he | he
      · right
        exact ⟨n, hn2, he⟩
      · left
        exact ⟨n, hn2, he⟩
    · rintro (⟨n, hn2, he⟩ | ⟨n, hn2, he⟩)
      · refine ⟨n, hn2, ?_⟩
        rw [nodeEdges_eq]
        exact List.mem_cons_of_mem _ he
      · refine ⟨n, hn2, ?_⟩
        rw [nodeEdges_eq, he]
        exact List.mem_cons_self _ _
  · intro n hn2 hserver
    constructor
    · apply composeEdges_mem.mpr
      refine ⟨n, hn2, ?_⟩
      rw [nodeEdges_eq]
      apply List.mem_cons_of_mem
      rw [claimedNodeEdges_mem]
      exact Or.inl ⟨hserver, rfl⟩
    · rw [append_server1]
      exact hdc n hn2
  · apply acyclic_of_rank (rankOf (buildTopo uc.nodeConfig shape ds))
    intro e he
    obtain ⟨n, hn2, hne⟩ := composeEdges_mem.mp he
    have hnall : n.name ∈ (buildTopo uc.nodeConfig shape ds).all := by
      rw [hallmap]
      exact List.mem_map_of_mem _ hn2
    rw [nodeEdges_eq, List.mem_cons] at hne
    rcases hne with he2 | he2
    · subst he2
      show rankOf _ (n.name ++ "-pod") < rankOf _ n.name
      have htgt : (n.name ++ "-pod") ∈ podNames (buildTopo uc.nodeConfig shape ds) := by
        unfold podNames
        exact List.mem_map_of_mem _ hnall
      unfold rankOf
      rw [if_pos htgt, if_neg (hnotpod n.name hnall)]
      split_ifs <;> omega
    · rw [claimedNodeEdges_mem] at he2
      rcases he2 with ⟨hserver, he2⟩ | ⟨hgw, he2⟩ | ⟨svc, hsome, he2 | he2⟩
      · subst he2
        show rankOf _ (n.datacenter ++ "-server1") < rankOf _ n.name
        have htgt_s : n.datacenter ++ "-server1" ∈
            (buildTopo uc.nodeConfig shape ds).servers := by
          rw [append_server1]
          exact hdc n hn2
        have htgt_all : n.datacenter ++ "-server1" ∈ (buildTopo uc.nodeConfig shape ds).all := by
          rw [hallsplit]
          exact List.mem_append_left _ htgt_s
        have hsrc_c : n.name ∈ (buildTopo uc.nodeConfig shape ds).clients := by
          rcases hsplit n hn2 with ⟨hs2, -⟩ | ⟨-, hc2⟩
          · rw [hserver] at hs2
            exact Bool.noConfusion hs2
          · exact hc2
        unfold rankOf
        rw [if_neg (hnotpod _ htgt_all), if_pos htgt_s, if_neg (hnotpod n.name hnall),
          if_neg (fun h2 => hdisj h2 hsrc_c), if_pos hsrc_c]
        omega
      · subst he2
        show rankOf _ n.name < rankOf _ (n.name ++ "-mesh-gateway")
        have hsrc_last : lastChar (n.name ++ "-mesh-gateway") = some 'y' := by
          rw [lastChar_append _ "-mesh-gateway" (by decide)]
          rfl
        have hnot1 : (n.name ++ "-mesh-gateway") ∉
            podNames (buildTopo uc.nodeConfig shape ds) := by
          apply lastChar_ne_not_mem hsrc_last
          intro y hy
          exact ⟨'d', hpodlast y hy, by decide⟩
        have hnot2 : (n.name ++ "-mesh-gateway") ∉ (buildTopo uc.nodeConfig shape ds).servers := by
          apply lastChar_ne_not_mem hsrc_last
          intro y hy
          obtain ⟨m, hm, hc⟩ := hdigitS y hy
          exact ⟨digitChar m, hc, digitChar_ne_of_not_digit hm (by decide)⟩
        have hnot3 : (n.name ++ "-mesh-gateway") ∉ (buildTopo uc.nodeConfig shape ds).clients := by
          apply lastChar_ne_not_mem hsrc_last
          intro y hy
          obtain ⟨m, hm, hc⟩ := hdigitC y hy
          exact ⟨digitChar m, hc, digitChar_ne_of_not_digit hm (by decide)⟩
        have hnot4 : (n.name ++ "-mesh-gateway") ∉ appNames (buildTopo uc.nodeConfig shape ds) := by
          apply lastChar_ne_not_mem hsrc_last
          intro y hy
          exact ⟨'g', happlast y hy, by decide⟩
        have hle := hrank_le2 n hn2
        have : rankOf (buildTopo uc.nodeConfig shape ds) (n.name ++ "-mesh-gateway") = 4 := by
          unfold rankOf
          rw [if_neg hnot1, if_neg hnot2, if_neg hnot3, if_neg hnot4]
        omega
      · subst he2
        show rankOf _ n.name < rankOf _ (n.name ++ "-" ++ svc.name)
        have happ : (n.name ++ "-" ++ svc.name) ∈ appNames (buildTopo uc.nodeConfig shape ds) := by
          unfold appNames
          rw [List.mem_filterMap]
          refine ⟨n, hn2, ?_⟩
          rw [hsome]
          rfl
        have happ_last := happlast _ happ
        have hnot1 : (n.name ++ "-" ++ svc.name) ∉
            podNames (buildTopo uc.nodeConfig shape ds) := by
          apply lastChar_ne_not_mem happ_last
          intro y hy
          exact ⟨'d', hpodlast y hy, by decide⟩
        have hnot2 : (n.name ++ "-" ++ svc.name) ∉ (buildTopo uc.nodeConfig shape ds).servers := by
          apply lastChar_ne_not_mem happ_last
          intro y hy
          obtain ⟨m, hm, hc⟩ := hdigitS y hy
          exact ⟨digitChar m, hc, digitChar_ne_of_not_digit hm (by decide)⟩
        have hnot3 : (n.name ++ "-" ++ svc.name) ∉ (buildTopo uc.nodeConfig shape ds).clients := by
          apply lastChar_ne_not_mem happ_last
          intro y hy
          obtain ⟨m, hm, hc⟩ := hdigitC y hy
          exact ⟨digitChar m, hc, digitChar_ne_of_not_digit hm (by decide)⟩
        have hle := hrank_le2 n hn2
        have : rankOf (buildTopo uc.nodeConfig shape ds) (n.name ++ "-" ++ svc.name) = 3 := by
          unfold rankOf
          rw [if_neg hnot1, if_neg hnot2, if_neg hnot3, if_pos happ]
        omega
      · subst he2
        show rankOf _ (n.name ++ "-" ++ svc.name) <
          rankOf _ (n.name ++ "-" ++ svc.name ++ "-sidecar")
        have happ : (n.name ++ "-" ++ svc.name) ∈ appNames (buildTopo uc.nodeConfig shape ds) := by
          unfold appNames
          rw [List.mem_filterMap]
          refine ⟨n, hn2, ?_⟩
          rw [hsome]
          rfl
        have happ_last := happlast _ happ
        have hnot1 : (n.name ++ "-" ++ svc.name) ∉
            podNames (buildTopo uc.nodeConfig shape ds) := by
          apply lastChar_ne_not_mem happ_last
          intro y hy
          exact ⟨'d', hpodlast y hy, by decide⟩
        have hnot2 : (n.name ++ "-" ++ svc.name) ∉ (buildTopo uc.nodeConfig shape ds).servers := by
          apply lastChar_ne_not_mem happ_last
          intro y hy
          obtain ⟨m, hm, hc⟩ := hdigitS y hy
          exact ⟨digitChar m, hc, digitChar_ne_of_not_digit hm (by decide)⟩
        have hnot3 : (n.name ++ "-" ++ svc.name) ∉ (buildTopo uc.nodeConfig shape ds).clients := by
          apply lastChar_ne_not_mem happ_last
          intro y hy
          obtain ⟨m, hm, hc⟩ := hdigitC y hy
          exact ⟨digitChar m, hc, digitChar_ne_of_not_digit hm (by decide)⟩
        have hside_last : lastChar (n.name ++ "-" ++ svc.name ++ "-sidecar") = some 'r' := by
          rw [lastChar_append _ "-sidecar" (by decide)]
          rfl
        have hsnot1 : (n.name ++ "-" ++ svc.name ++ "-sidecar") ∉
            podNames (buildTopo uc.nodeConfig shape ds) := by
          apply lastChar_ne_not_mem hside_last
          intro y hy
          exact ⟨'d', hpodlast y hy, by decide⟩
        have hsnot2 : (n.name ++ "-" ++ svc.name ++ "-sidecar") ∉
            (buildTopo uc.nodeConfig shape ds).servers := by
          apply lastChar_ne_not_mem hside_last
          intro y hy
          obtain ⟨m, hm, hc⟩ := hdigitS y hy
          exact ⟨digitChar m, hc, digitChar_ne_of_not_digit hm (by decide)⟩
        have hsnot3 : (n.name ++ "-" ++ svc.name ++ "-sidecar") ∉
            (buildTopo uc.nodeConfig shape ds).clients := by
          apply lastChar_ne_not_mem hside_last
          intro y hy
          obtain ⟨m, hm, hc⟩ := hdigitC y hy
          exact ⟨digitChar m, hc, digitChar_ne_of_not_digit hm (by decide)⟩
        have hsnot4 : (n.name ++ "-" ++ svc.name ++ "-sidecar") ∉
            appNames (buildTopo uc.nodeConfig shape ds) := by
          apply lastChar_ne_not_mem hside_last
          intro y hy
          exact ⟨'g', happlast y hy, by decide⟩
        have h1 : rankOf (buildTopo uc.nodeConfig shape ds) (n.name ++ "-" ++ svc.name) = 3 := by
          unfold rankOf
          rw [if_neg hnot1, if_neg hnot2, if_neg hnot3, if_pos happ]
        have h2 : rankOf (buildTopo uc.nodeConfig shape ds)
            (n.name ++ "-" ++ svc.name ++ "-sidecar") = 4 := by
          unfold rankOf
          rw [if_neg hsnot1, if_neg hsnot2, if_neg hsnot3, if_neg hsnot4]
        omega

/-- C8 counterexample: a server agent does depend on its pod container, an
edge absent from the claimed edge set. -/
theorem c8_counterexample :
    ("dc1-server1", "dc1-server1-pod") ∈ composeEdges exTopo ∧
    ("dc1-server1", "dc1-server1-pod") ∉ claimedEdges exTopo := by
  constructor
  · decide
  · decide

/-- C8 witness: the amended statement at the example topology. -/
theorem c8_witness :
    (∀ e : String × String, e ∈ composeEdges exTopo ↔
      (e ∈ claimedEdges exTopo ∨ ∃ n ∈ exTopo.nodesInOrder, e = (n.name, n.name ++ "-pod"))) ∧
    (∀ n ∈ exTopo.nodesInOrder, n.server = false →
      (n.name, n.datacenter ++ "-server1") ∈ composeEdges exTopo ∧
      n.datacenter ++ "-server1" ∈ exTopo.servers) ∧
    Acyclic (composeEdges exTopo) :=
  @c8_dependency_edges exCfg exTopo (by decide) rfl

end Devconsul
